import Mathlib

/-!
# hybrid_fuse: fallback dispatch over an ordered list of backing roots

A shallow embedding of `src/hybrid_fuse.c`.  Every FUSE callback of the file is a
linear scan over `MY_DATA->rootdir[0 .. dir_cnt-1]`: build the physical path with
`get_path`, call one libc primitive on it, return on the first success, and
return `-errno` when the scan is exhausted.

* C strings are lists of characters (the terminating NUL is left implicit).
* The kernel and libc are not part of the repository: they are a parameter
  `K : Sys σ` over an arbitrary kernel state `σ`.  A primitive either fails with
  a positive `errno` value or succeeds with its result (and the next kernel state).
* The process state `Proc σ` carries the kernel state, the C variable `errno`
  and the sequence of primitive calls issued so far.
* `PATH_MAX` comes from `<limits.h>` and is a parameter as well.
* A result `none` stands for a run that leaves the behaviour defined by C:
  `get_path` wrote beyond `fpath[PATH_MAX]`.  The characters it writes in that
  case are followed separately, by `get_path_flat`.

The file has three parts: the embedding (data model, path resolver, callbacks),
the definitions the statements need (the generic scan, outcome predicates, a
small concrete kernel with sample states), and the theorems (lemmas on the
resolver and the scan, then one block per claim).
-/

namespace HybridFuse

/-! ## Data model -/

/-- A C string, without its terminating NUL. -/
abbrev Path := List Char

/-- The part of `struct stat` the embedding observes. -/
structure stat where
  st_ino : Nat
  st_mode : Nat
  st_size : Nat
  deriving DecidableEq, Repr

/-- The part of `struct statvfs` the embedding observes. -/
structure statvfs_t where
  f_bsize : Nat
  f_bfree : Nat
  deriving DecidableEq, Repr

/-- A directory stream `DIR *`: its address and the names `readdir` will return
from it, in order, before it returns `NULL`. -/
structure DIR where
  addr : Nat
  entries : List Path
  deriving DecidableEq, Repr

/-- The two fields of `struct fuse_file_info` the file uses. -/
structure fuse_file_info where
  flags : Int
  fh : Nat
  deriving DecidableEq, Repr

/-- `my_data`: the root list.  `main` stores `argc - 2` canonicalised roots and
sets `dir_cnt` to that same number, so `dir_cnt` is the length of `rootdir`. -/
structure my_data where
  rootdir : List Path
  deriving DecidableEq, Repr

/-- The field `dir_cnt` of `my_data`. -/
def my_data.dir_cnt (D : my_data) : Nat := D.rootdir.length

/-! ## errno values and integer conversions -/

def ENOENT : Int := 2
def EIO : Int := 5
def EBADF : Int := 9
def EACCES : Int := 13
def EEXIST : Int := 17
def ENAMETOOLONG : Int := 36

/-- Conversion to the C type `int` (32 bits, two's complement). -/
def to_int (x : Int) : Int := (x + 2 ^ 31) % 2 ^ 32 - 2 ^ 31

/-- `O_CREAT | O_EXCL | O_WRONLY` on Linux. -/
def O_CREAT_EXCL_WRONLY : Int := 0o301

/-- `S_ISREG(mode)`. -/
def S_ISREG (mode : Nat) : Bool := mode &&& 0o170000 == 0o100000

/-- `S_ISFIFO(mode)`. -/
def S_ISFIFO (mode : Nat) : Bool := mode &&& 0o170000 == 0o010000

/-- Unsigned subtraction `size - 1` on `size_t` (64 bits). -/
def size_pred (size : Nat) : Nat := (size + 2 ^ 64 - 1) % 2 ^ 64

/-! ## Primitive calls and the process state -/

/-- One call of a libc primitive (or of the FUSE `filler`), with its arguments. -/
inductive Call
  | lstat (fpath : Path)
  | access (fpath : Path) (mask : Int)
  | readlink (fpath : Path) (bufsiz : Nat)
  | statvfs (fpath : Path)
  | unlink (fpath : Path)
  | mkdir (fpath : Path) (mode : Nat)
  | creat (fpath : Path) (mode : Nat)
  | symlink (target linkpath : Path)
  | rename (oldpath newpath : Path)
  | link (oldpath newpath : Path)
  | open_ (fpath : Path) (flags : Int)
  | opendir (fpath : Path)
  | close (fd : Int)
  | closedir (dp : Nat)
  | pread (fd : Int) (size : Nat) (offset : Int)
  | pwrite (fd : Int) (buf : List Nat) (size : Nat) (offset : Int)
  | ftruncate (fd : Int) (offset : Int)
  | fsync (fd : Int)
  | fdatasync (fd : Int)
  | filler (name : Path)
  | open_mode (fpath : Path) (flags : Int) (mode : Nat)
  | mkfifo (fpath : Path) (mode : Nat)
  | mknod (fpath : Path) (mode : Nat) (dev : Nat)
  | lgetxattr (fpath : Path) (name : Path) (size : Nat)
  | llistxattr (fpath : Path) (size : Nat)
  deriving DecidableEq, Repr

/-- The libc primitives the callbacks use, over a kernel state `σ`.
`Except.error e` is a failed call that sets `errno` to `e`; a failed call
leaves the kernel state as it was. -/
structure Sys (σ : Type) where
  lstat : Path → σ → Except Int stat
  access : Path → Int → σ → Except Int Unit
  readlink : Path → Nat → σ → Except Int Path
  statvfs : Path → σ → Except Int statvfs_t
  unlink : Path → σ → Except Int σ
  mkdir : Path → Nat → σ → Except Int σ
  creat : Path → Nat → σ → Except Int (Nat × σ)
  symlink : Path → Path → σ → Except Int σ
  rename : Path → Path → σ → Except Int σ
  link : Path → Path → σ → Except Int σ
  open_ : Path → Int → σ → Except Int (Nat × σ)
  opendir : Path → σ → Except Int (DIR × σ)
  close : Int → σ → Except Int σ
  closedir : Nat → σ → Except Int σ
  pread : Int → Nat → Int → σ → Except Int (List Nat × σ)
  pwrite : Int → List Nat → Nat → Int → σ → Except Int (Nat × σ)
  ftruncate : Int → Int → σ → Except Int σ
  fsync : Int → σ → Except Int σ
  fdatasync : Int → σ → Except Int σ
  /-- `open` with three arguments: the descriptor and the next kernel state -/
  open_mode : Path → Int → Nat → σ → Except Int (Nat × σ)
  mkfifo : Path → Nat → σ → Except Int σ
  mknod : Path → Nat → Nat → σ → Except Int σ
  /-- `lgetxattr`: the size it returns and the bytes it stored in the value buffer -/
  lgetxattr : Path → Path → Nat → σ → Except Int (Nat × List Nat)
  /-- `llistxattr`: the size it returns and the bytes it stored in the list buffer -/
  llistxattr : Path → Nat → σ → Except Int (Nat × List Nat)

/-- Process state: kernel state, the variable `errno`, and the calls issued. -/
structure Proc (σ : Type) where
  os : σ
  errno : Int
  trace : List Call
  deriving DecidableEq, Repr

/-- State after a primitive call `c` that failed with `e`. -/
def Proc.failed {σ : Type} (p : Proc σ) (c : Call) (e : Int) : Proc σ :=
  { os := p.os, errno := e, trace := p.trace ++ [c] }

/-- State after a primitive call `c` that succeeded and left kernel state `os1`;
`errno` keeps its value. -/
def Proc.done {σ : Type} (p : Proc σ) (c : Call) (os1 : σ) : Proc σ :=
  { os := os1, errno := p.errno, trace := p.trace ++ [c] }

/-! ## Path resolver -/

/-- `strncpy(dst, src, n)` for `char dst[cap]`.  The call writes `n` bytes; `dst`
then holds the string `src` when `src` is shorter than `n`, and no terminated
string at all otherwise (`none`, as when `n` exceeds `cap`). -/
def strncpy (cap : Nat) (src : Path) (n : Nat) : Option Path :=
  if n ≤ cap ∧ src.length < n then some src else none

/-- `strncat(dst, src, n)` for `char dst[cap]` holding the string `dst`: appends
the first `n` characters of `src` and a NUL.  `none` when these bytes do not fit
in the `cap` bytes of the array. -/
def strncat (cap : Nat) (dst src : Path) (n : Nat) : Option Path :=
  if dst.length + (src.take n).length + 1 ≤ cap then some (dst ++ src.take n) else none

/-- `get_path(fpath, path, idx)`: the string left in `fpath[PATH_MAX]`. -/
def get_path (PATH_MAX : Nat) (D : my_data) (path : Path) (idx : Nat) : Option Path :=
  let idx := if idx ≥ D.dir_cnt then 0 else idx
  match D.rootdir[idx]? with
  | none => none
  | some root =>
    match strncpy PATH_MAX root PATH_MAX with
    | none => none
    | some fpath => strncat PATH_MAX fpath path PATH_MAX

/-! ## Callbacks -/

section Callbacks

variable {σ : Type}

/-- The `for` loop of `my_getattr`; the first argument is `dir_cnt - iter`. -/
def my_getattr_loop (PATH_MAX : Nat) (D : my_data) (K : Sys σ) (path : Path) :
    Nat → Nat → Proc σ → Option (Int × Option stat × Proc σ)
  | 0, _, p => some (-p.errno, none, p)
  | n + 1, iter, p =>
    match get_path PATH_MAX D path iter with
    | none => none
    | some fpath =>
      match K.lstat fpath p.os with
      | .ok st => some (0, some st, p.done (Call.lstat fpath) p.os)
      | .error e => my_getattr_loop PATH_MAX D K path n (iter + 1) (p.failed (Call.lstat fpath) e)

/-- `my_getattr(path, statbuf)`: return value, what was stored in `statbuf`
(`none`: left untouched), and the process state. -/
def my_getattr (PATH_MAX : Nat) (D : my_data) (K : Sys σ) (path : Path) (p : Proc σ) :
    Option (Int × Option stat × Proc σ) :=
  my_getattr_loop PATH_MAX D K path D.dir_cnt 0 p

/-- The `for` loop of `my_readlink`. -/
def my_readlink_loop (PATH_MAX : Nat) (D : my_data) (K : Sys σ) (path : Path) (size : Nat) :
    Nat → Nat → Proc σ → Option (Int × Option Path × Proc σ)
  | 0, _, p => some (-p.errno, none, p)
  | n + 1, iter, p =>
    match get_path PATH_MAX D path iter with
    | none => none
    | some fpath =>
      match K.readlink fpath (size_pred size) p.os with
      | .ok target => some (0, some target, p.done (Call.readlink fpath (size_pred size)) p.os)
      | .error e =>
        my_readlink_loop PATH_MAX D K path size n (iter + 1)
          (p.failed (Call.readlink fpath (size_pred size)) e)

/-- `my_readlink(path, link, size)`: return value, the string stored in `link`
(`none`: left untouched), and the process state. -/
def my_readlink (PATH_MAX : Nat) (D : my_data) (K : Sys σ) (path : Path) (size : Nat)
    (p : Proc σ) : Option (Int × Option Path × Proc σ) :=
  my_readlink_loop PATH_MAX D K path size D.dir_cnt 0 p

/-- The `for` loop of `my_mkdir`. -/
def my_mkdir_loop (PATH_MAX : Nat) (D : my_data) (K : Sys σ) (path : Path) (mode : Nat) :
    Nat → Nat → Proc σ → Option (Int × Proc σ)
  | 0, _, p => some (-p.errno, p)
  | n + 1, iter, p =>
    match get_path PATH_MAX D path iter with
    | none => none
    | some fpath =>
      match K.mkdir fpath mode p.os with
      | .ok os1 => some (0, p.done (Call.mkdir fpath mode) os1)
      | .error e => my_mkdir_loop PATH_MAX D K path mode n (iter + 1) (p.failed (Call.mkdir fpath mode) e)

/-- `my_mkdir(path, mode)`. -/
def my_mkdir (PATH_MAX : Nat) (D : my_data) (K : Sys σ) (path : Path) (mode : Nat)
    (p : Proc σ) : Option (Int × Proc σ) :=
  my_mkdir_loop PATH_MAX D K path mode D.dir_cnt 0 p

/-- The `for` loop of `my_unlink`. -/
def my_unlink_loop (PATH_MAX : Nat) (D : my_data) (K : Sys σ) (path : Path) :
    Nat → Nat → Proc σ → Option (Int × Proc σ)
  | 0, _, p => some (-p.errno, p)
  | n + 1, iter, p =>
    match get_path PATH_MAX D path iter with
    | none => none
    | some fpath =>
      match K.unlink fpath p.os with
      | .ok os1 => some (0, p.done (Call.unlink fpath) os1)
      | .error e => my_unlink_loop PATH_MAX D K path n (iter + 1) (p.failed (Call.unlink fpath) e)

/-- `my_unlink(path)`. -/
def my_unlink (PATH_MAX : Nat) (D : my_data) (K : Sys σ) (path : Path) (p : Proc σ) :
    Option (Int × Proc σ) :=
  my_unlink_loop PATH_MAX D K path D.dir_cnt 0 p

/-- The `for` loop of `my_symlink`: `flink` is resolved first, then `fpath`. -/
def my_symlink_loop (PATH_MAX : Nat) (D : my_data) (K : Sys σ) (path link : Path) :
    Nat → Nat → Proc σ → Option (Int × Proc σ)
  | 0, _, p => some (-p.errno, p)
  | n + 1, iter, p =>
    match get_path PATH_MAX D link iter with
    | none => none
    | some flink =>
      match get_path PATH_MAX D path iter with
      | none => none
      | some fpath =>
        match K.symlink fpath flink p.os with
        | .ok os1 => some (0, p.done (Call.symlink fpath flink) os1)
        | .error e =>
          my_symlink_loop PATH_MAX D K path link n (iter + 1) (p.failed (Call.symlink fpath flink) e)

/-- `my_symlink(path, link)`. -/
def my_symlink (PATH_MAX : Nat) (D : my_data) (K : Sys σ) (path link : Path) (p : Proc σ) :
    Option (Int × Proc σ) :=
  my_symlink_loop PATH_MAX D K path link D.dir_cnt 0 p

/-- The `for` loop of `my_rename`. -/
def my_rename_loop (PATH_MAX : Nat) (D : my_data) (K : Sys σ) (path newpath : Path) :
    Nat → Nat → Proc σ → Option (Int × Proc σ)
  | 0, _, p => some (-p.errno, p)
  | n + 1, iter, p =>
    match get_path PATH_MAX D path iter with
    | none => none
    | some fpath =>
      match get_path PATH_MAX D newpath iter with
      | none => none
      | some fnewpath =>
        match K.rename fpath fnewpath p.os with
        | .ok os1 => some (0, p.done (Call.rename fpath fnewpath) os1)
        | .error e =>
          my_rename_loop PATH_MAX D K path newpath n (iter + 1)
            (p.failed (Call.rename fpath fnewpath) e)

/-- `my_rename(path, newpath)`. -/
def my_rename (PATH_MAX : Nat) (D : my_data) (K : Sys σ) (path newpath : Path) (p : Proc σ) :
    Option (Int × Proc σ) :=
  my_rename_loop PATH_MAX D K path newpath D.dir_cnt 0 p

/-- The `for` loop of `my_link`. -/
def my_link_loop (PATH_MAX : Nat) (D : my_data) (K : Sys σ) (path newpath : Path) :
    Nat → Nat → Proc σ → Option (Int × Proc σ)
  | 0, _, p => some (-p.errno, p)
  | n + 1, iter, p =>
    match get_path PATH_MAX D path iter with
    | none => none
    | some fpath =>
      match get_path PATH_MAX D newpath iter with
      | none => none
      | some fnewpath =>
        match K.link fpath fnewpath p.os with
        | .ok os1 => some (0, p.done (Call.link fpath fnewpath) os1)
        | .error e =>
          my_link_loop PATH_MAX D K path newpath n (iter + 1)
            (p.failed (Call.link fpath fnewpath) e)

/-- `my_link(path, newpath)`. -/
def my_link (PATH_MAX : Nat) (D : my_data) (K : Sys σ) (path newpath : Path) (p : Proc σ) :
    Option (Int × Proc σ) :=
  my_link_loop PATH_MAX D K path newpath D.dir_cnt 0 p

/-- The `for` loop of `my_open`: a descriptor counts as opened when `fd > 0`. -/
def my_open_loop (PATH_MAX : Nat) (D : my_data) (K : Sys σ) (path : Path) :
    Nat → Nat → fuse_file_info → Proc σ → Option (Int × fuse_file_info × Proc σ)
  | 0, _, fi, p => some (-p.errno, fi, p)
  | n + 1, iter, fi, p =>
    match get_path PATH_MAX D path iter with
    | none => none
    | some fpath =>
      match K.open_ fpath fi.flags p.os with
      | .ok (fd, os1) =>
        if fd > 0 then
          some (0, { flags := fi.flags, fh := fd }, p.done (Call.open_ fpath fi.flags) os1)
        else
          my_open_loop PATH_MAX D K path n (iter + 1) fi (p.done (Call.open_ fpath fi.flags) os1)
      | .error e =>
        my_open_loop PATH_MAX D K path n (iter + 1) fi (p.failed (Call.open_ fpath fi.flags) e)

/-- `my_open(path, fi)`: `open` on `path` as given, then the scan over the roots. -/
def my_open (PATH_MAX : Nat) (D : my_data) (K : Sys σ) (path : Path) (fi : fuse_file_info)
    (p : Proc σ) : Option (Int × fuse_file_info × Proc σ) :=
  match K.open_ path fi.flags p.os with
  | .ok (fd, os1) =>
    if fd > 0 then
      some (0, { flags := fi.flags, fh := fd }, p.done (Call.open_ path fi.flags) os1)
    else
      my_open_loop PATH_MAX D K path D.dir_cnt 0 fi (p.done (Call.open_ path fi.flags) os1)
  | .error e =>
    my_open_loop PATH_MAX D K path D.dir_cnt 0 fi (p.failed (Call.open_ path fi.flags) e)

/-- `my_read(path, buf, size, offset, fi)`: return value, the bytes stored in
`buf`, and the process state.  `path` and the root list are not used. -/
def my_read (_D : my_data) (K : Sys σ) (_path : Path) (size : Nat) (offset : Int)
    (fi : fuse_file_info) (p : Proc σ) : Int × List Nat × Proc σ :=
  let fd := to_int fi.fh
  match K.pread fd size offset p.os with
  | .ok (bytes, os1) =>
    let p1 := p.done (Call.pread fd size offset) os1
    let res := to_int bytes.length
    if res < 0 then (-p1.errno, bytes, p1) else (res, bytes, p1)
  | .error e =>
    let p1 := p.failed (Call.pread fd size offset) e
    (-p1.errno, [], p1)

/-- `my_write(path, buf, size, offset, fi)`. -/
def my_write (_D : my_data) (K : Sys σ) (_path : Path) (buf : List Nat) (size : Nat)
    (offset : Int) (fi : fuse_file_info) (p : Proc σ) : Int × Proc σ :=
  let fd := to_int fi.fh
  match K.pwrite fd buf size offset p.os with
  | .ok (cnt, os1) =>
    let p1 := p.done (Call.pwrite fd buf size offset) os1
    let res := to_int cnt
    if res < 0 then (-p1.errno, p1) else (res, p1)
  | .error e =>
    let p1 := p.failed (Call.pwrite fd buf size offset) e
    (-p1.errno, p1)

/-- The `for` loop of `my_statfs`. -/
def my_statfs_loop (PATH_MAX : Nat) (D : my_data) (K : Sys σ) (path : Path) :
    Nat → Nat → Proc σ → Option (Int × Option statvfs_t × Proc σ)
  | 0, _, p => some (-p.errno, none, p)
  | n + 1, iter, p =>
    match get_path PATH_MAX D path iter with
    | none => none
    | some fpath =>
      match K.statvfs fpath p.os with
      | .ok sv => some (0, some sv, p.done (Call.statvfs fpath) p.os)
      | .error e => my_statfs_loop PATH_MAX D K path n (iter + 1) (p.failed (Call.statvfs fpath) e)

/-- `my_statfs(path, statv)`. -/
def my_statfs (PATH_MAX : Nat) (D : my_data) (K : Sys σ) (path : Path) (p : Proc σ) :
    Option (Int × Option statvfs_t × Proc σ) :=
  my_statfs_loop PATH_MAX D K path D.dir_cnt 0 p

/-- `my_release(path, fi)`: the status of `close(fi->fh)` is returned as it is. -/
def my_release (_D : my_data) (K : Sys σ) (_path : Path) (fi : fuse_file_info) (p : Proc σ) :
    Int × Proc σ :=
  let fd := to_int fi.fh
  match K.close fd p.os with
  | .ok os1 => (0, p.done (Call.close fd) os1)
  | .error e => (-1, p.failed (Call.close fd) e)

/-- `my_fsync(path, datasync, fi)`; `HAVE_FDATASYNC` is the build-time macro. -/
def my_fsync (HAVE_FDATASYNC : Bool) (_D : my_data) (K : Sys σ) (_path : Path) (datasync : Int)
    (fi : fuse_file_info) (p : Proc σ) : Int × Proc σ :=
  let fd := to_int fi.fh
  if HAVE_FDATASYNC && decide (datasync ≠ 0) then
    match K.fdatasync fd p.os with
    | .ok os1 => (0, p.done (Call.fdatasync fd) os1)
    | .error e => (-(p.failed (Call.fdatasync fd) e).errno, p.failed (Call.fdatasync fd) e)
  else
    match K.fsync fd p.os with
    | .ok os1 => (0, p.done (Call.fsync fd) os1)
    | .error e => (-(p.failed (Call.fsync fd) e).errno, p.failed (Call.fsync fd) e)

/-- The `for` loop of `my_opendir`. -/
def my_opendir_loop (PATH_MAX : Nat) (D : my_data) (K : Sys σ) (path : Path) :
    Nat → Nat → fuse_file_info → Proc σ → Option (Int × fuse_file_info × Proc σ)
  | 0, _, fi, p => some (-p.errno, fi, p)
  | n + 1, iter, fi, p =>
    match get_path PATH_MAX D path iter with
    | none => none
    | some fpath =>
      match K.opendir fpath p.os with
      | .ok (dp, os1) =>
        some (0, { flags := fi.flags, fh := dp.addr }, p.done (Call.opendir fpath) os1)
      | .error e =>
        my_opendir_loop PATH_MAX D K path n (iter + 1) fi (p.failed (Call.opendir fpath) e)

/-- `my_opendir(path, fi)`: `opendir` on `path` as given, then the scan. -/
def my_opendir (PATH_MAX : Nat) (D : my_data) (K : Sys σ) (path : Path) (fi : fuse_file_info)
    (p : Proc σ) : Option (Int × fuse_file_info × Proc σ) :=
  match K.opendir path p.os with
  | .ok (dp, os1) =>
    some (0, { flags := fi.flags, fh := dp.addr }, p.done (Call.opendir path) os1)
  | .error e =>
    my_opendir_loop PATH_MAX D K path D.dir_cnt 0 fi (p.failed (Call.opendir path) e)

/-- The `while ((de = readdir(dp)) != NULL)` loop of `my_readdir` over the names
the stream still holds.  `Except.error` is the early `return -errno`;
`Except.ok` carries `res` and the buffer on to the next root. -/
def my_readdir_while {β : Type} (filler : β → Path → Int × β) :
    List Path → Int → β → Proc σ → Except (Int × β × Proc σ) (Int × β × Proc σ)
  | [], res, buf, p => .ok (res, buf, p)
  | name :: rest, _, buf, p =>
    let r := filler buf name
    let p1 := p.done (Call.filler name) p.os
    if r.1 ≠ 0 then .error (-p1.errno, r.2, p1)
    else my_readdir_while filler rest r.1 r.2 p1

/-- The `for` loop of `my_readdir`. -/
def my_readdir_loop {β : Type} (PATH_MAX : Nat) (D : my_data) (K : Sys σ) (path : Path)
    (filler : β → Path → Int × β) :
    Nat → Nat → Int → β → Proc σ → Option (Int × β × Proc σ)
  | 0, _, res, buf, p => some (res, buf, p)
  | n + 1, iter, res, buf, p =>
    match get_path PATH_MAX D path iter with
    | none => none
    | some fpath =>
      match K.opendir fpath p.os with
      | .error e =>
        my_readdir_loop PATH_MAX D K path filler n (iter + 1) res buf
          (p.failed (Call.opendir fpath) e)
      | .ok (dp, os1) =>
        match my_readdir_while filler dp.entries res buf (p.done (Call.opendir fpath) os1) with
        | .error out => some out
        | .ok (res1, buf1, p1) =>
          my_readdir_loop PATH_MAX D K path filler n (iter + 1) res1 buf1 p1

/-- `my_readdir(path, buf, filler, offset, fi)`; `offset` and `fi` are not used. -/
def my_readdir {β : Type} (PATH_MAX : Nat) (D : my_data) (K : Sys σ) (path : Path) (buf : β)
    (filler : β → Path → Int × β) (_offset : Int) (_fi : fuse_file_info) (p : Proc σ) :
    Option (Int × β × Proc σ) :=
  my_readdir_loop PATH_MAX D K path filler D.dir_cnt 0 0 buf p

/-- `my_releasedir(path, fi)`: the status of `closedir` is returned as it is. -/
def my_releasedir (_D : my_data) (K : Sys σ) (_path : Path) (fi : fuse_file_info) (p : Proc σ) :
    Int × Proc σ :=
  match K.closedir fi.fh p.os with
  | .ok os1 => (0, p.done (Call.closedir fi.fh) os1)
  | .error e => (-1, p.failed (Call.closedir fi.fh) e)

/-- The `for` loop of `my_access`. -/
def my_access_loop (PATH_MAX : Nat) (D : my_data) (K : Sys σ) (path : Path) (mask : Int) :
    Nat → Nat → Proc σ → Option (Int × Proc σ)
  | 0, _, p => some (-p.errno, p)
  | n + 1, iter, p =>
    match get_path PATH_MAX D path iter with
    | none => none
    | some fpath =>
      match K.access fpath mask p.os with
      | .ok _ => some (0, p.done (Call.access fpath mask) p.os)
      | .error e => my_access_loop PATH_MAX D K path mask n (iter + 1) (p.failed (Call.access fpath mask) e)

/-- `my_access(path, mask)`. -/
def my_access (PATH_MAX : Nat) (D : my_data) (K : Sys σ) (path : Path) (mask : Int)
    (p : Proc σ) : Option (Int × Proc σ) :=
  my_access_loop PATH_MAX D K path mask D.dir_cnt 0 p

/-- The `for` loop of `my_create`: a descriptor counts as created when `fd > 0`. -/
def my_create_loop (PATH_MAX : Nat) (D : my_data) (K : Sys σ) (path : Path) (mode : Nat) :
    Nat → Nat → fuse_file_info → Proc σ → Option (Int × fuse_file_info × Proc σ)
  | 0, _, fi, p => some (-p.errno, fi, p)
  | n + 1, iter, fi, p =>
    match get_path PATH_MAX D path iter with
    | none => none
    | some fpath =>
      match K.creat fpath mode p.os with
      | .ok (fd, os1) =>
        if fd > 0 then
          some (0, { flags := fi.flags, fh := fd }, p.done (Call.creat fpath mode) os1)
        else
          my_create_loop PATH_MAX D K path mode n (iter + 1) fi (p.done (Call.creat fpath mode) os1)
      | .error e =>
        my_create_loop PATH_MAX D K path mode n (iter + 1) fi (p.failed (Call.creat fpath mode) e)

/-- `my_create(path, mode, fi)`. -/
def my_create (PATH_MAX : Nat) (D : my_data) (K : Sys σ) (path : Path) (mode : Nat)
    (fi : fuse_file_info) (p : Proc σ) : Option (Int × fuse_file_info × Proc σ) :=
  my_create_loop PATH_MAX D K path mode D.dir_cnt 0 fi p

/-- `my_ftruncate(path, offset, fi)`. -/
def my_ftruncate (_D : my_data) (K : Sys σ) (_path : Path) (offset : Int) (fi : fuse_file_info)
    (p : Proc σ) : Int × Proc σ :=
  let fd := to_int fi.fh
  match K.ftruncate fd offset p.os with
  | .ok os1 => (0, p.done (Call.ftruncate fd offset) os1)
  | .error e => (-(p.failed (Call.ftruncate fd offset) e).errno, p.failed (Call.ftruncate fd offset) e)

/-- The `for` loop of `my_mknod`.  For a regular file the result of `open` is
tested with `res == 0`, then `close(res)` is called whatever `open` returned
(`close(-1)` after a failed `open`), and its status is tested with `res == 0`. -/
def my_mknod_loop (PATH_MAX : Nat) (D : my_data) (K : Sys σ) (path : Path) (mode dev : Nat) :
    Nat → Nat → Proc σ → Option (Int × Proc σ)
  | 0, _, p => some (-p.errno, p)
  | n + 1, iter, p =>
    match get_path PATH_MAX D path iter with
    | none => none
    | some fpath =>
      if S_ISREG mode then
        match K.open_mode fpath O_CREAT_EXCL_WRONLY mode p.os with
        | .ok (fd, os1) =>
          let p1 := p.done (Call.open_mode fpath O_CREAT_EXCL_WRONLY mode) os1
          if fd = 0 then some (0, p1)
          else
            match K.close fd p1.os with
            | .ok os2 => some (0, p1.done (Call.close fd) os2)
            | .error e =>
              my_mknod_loop PATH_MAX D K path mode dev n (iter + 1) (p1.failed (Call.close fd) e)
        | .error e =>
          let p1 := p.failed (Call.open_mode fpath O_CREAT_EXCL_WRONLY mode) e
          match K.close (-1) p1.os with
          | .ok os2 => some (0, p1.done (Call.close (-1)) os2)
          | .error e2 =>
            my_mknod_loop PATH_MAX D K path mode dev n (iter + 1) (p1.failed (Call.close (-1)) e2)
      else if S_ISFIFO mode then
        match K.mkfifo fpath mode p.os with
        | .ok os1 => some (0, p.done (Call.mkfifo fpath mode) os1)
        | .error e =>
          my_mknod_loop PATH_MAX D K path mode dev n (iter + 1) (p.failed (Call.mkfifo fpath mode) e)
      else
        match K.mknod fpath mode dev p.os with
        | .ok os1 => some (0, p.done (Call.mknod fpath mode dev) os1)
        | .error e =>
          my_mknod_loop PATH_MAX D K path mode dev n (iter + 1)
            (p.failed (Call.mknod fpath mode dev) e)

/-- `my_mknod(path, mode, dev)`. -/
def my_mknod (PATH_MAX : Nat) (D : my_data) (K : Sys σ) (path : Path) (mode dev : Nat)
    (p : Proc σ) : Option (Int × Proc σ) :=
  my_mknod_loop PATH_MAX D K path mode dev D.dir_cnt 0 p

/-- The `for` loop of `my_getxattr`: the result of `lgetxattr` is tested with
`res == 0`.  The third argument is the content of the `value` buffer. -/
def my_getxattr_loop (PATH_MAX : Nat) (D : my_data) (K : Sys σ) (path name : Path) (size : Nat) :
    Nat → Nat → Option (List Nat) → Proc σ → Option (Int × Option (List Nat) × Proc σ)
  | 0, _, value, p => some (-p.errno, value, p)
  | n + 1, iter, value, p =>
    match get_path PATH_MAX D path iter with
    | none => none
    | some fpath =>
      match K.lgetxattr fpath name size p.os with
      | .ok (len, bytes) =>
        let p1 := p.done (Call.lgetxattr fpath name size) p.os
        if to_int len = 0 then some (0, some bytes, p1)
        else my_getxattr_loop PATH_MAX D K path name size n (iter + 1) (some bytes) p1
      | .error e =>
        my_getxattr_loop PATH_MAX D K path name size n (iter + 1) value
          (p.failed (Call.lgetxattr fpath name size) e)

/-- `my_getxattr(path, name, value, size)`: return value, what was stored in
`value` (`none`: left untouched), and the process state. -/
def my_getxattr (PATH_MAX : Nat) (D : my_data) (K : Sys σ) (path name : Path) (size : Nat)
    (p : Proc σ) : Option (Int × Option (List Nat) × Proc σ) :=
  my_getxattr_loop PATH_MAX D K path name size D.dir_cnt 0 none p

/-- The `for` loop of `my_listxattr`: the result of `llistxattr` is tested with
`res == 0`.  The third argument is the content of the `list` buffer. -/
def my_listxattr_loop (PATH_MAX : Nat) (D : my_data) (K : Sys σ) (path : Path) (size : Nat) :
    Nat → Nat → Option (List Nat) → Proc σ → Option (Int × Option (List Nat) × Proc σ)
  | 0, _, list, p => some (-p.errno, list, p)
  | n + 1, iter, list, p =>
    match get_path PATH_MAX D path iter with
    | none => none
    | some fpath =>
      match K.llistxattr fpath size p.os with
      | .ok (len, bytes) =>
        let p1 := p.done (Call.llistxattr fpath size) p.os
        if to_int len = 0 then some (0, some bytes, p1)
        else my_listxattr_loop PATH_MAX D K path size n (iter + 1) (some bytes) p1
      | .error e =>
        my_listxattr_loop PATH_MAX D K path size n (iter + 1) list
          (p.failed (Call.llistxattr fpath size) e)

/-- `my_listxattr(path, list, size)`. -/
def my_listxattr (PATH_MAX : Nat) (D : my_data) (K : Sys σ) (path : Path) (size : Nat)
    (p : Proc σ) : Option (Int × Option (List Nat) × Proc σ) :=
  my_listxattr_loop PATH_MAX D K path size D.dir_cnt 0 none p

end Callbacks

/-! ## The scan shared by the path-based callbacks -/

section Scan
variable {σ : Type}

/-- The common shape of the `for` loops: resolve the physical path(s) of root
`iter`, call the primitive, return on success, go on with `errno` set on failure. -/
def scan {φ α β : Type} (resolve : Nat → Option φ) (prim : φ → σ → Except Int α)
    (call : φ → Call) (win : φ → α → Proc σ → β) (lose : Proc σ → β) :
    Nat → Nat → Proc σ → Option β
  | 0, _, p => some (lose p)
  | n + 1, iter, p =>
    match resolve iter with
    | none => none
    | some f =>
      match prim f p.os with
      | .ok a => some (win f a p)
      | .error e => scan resolve prim call win lose n (iter + 1) (p.failed (call f) e)

end Scan

/-! ## A small concrete kernel

Used to run the callbacks on concrete inputs. -/

/-- A flat table of objects by physical path. -/
structure Toy where
  /-- objects and their metadata -/
  files : List (Path × stat)
  /-- symbolic links and their targets -/
  links : List (Path × Path)
  /-- directory listings -/
  dirs : List (Path × List Path)
  /-- physical paths in directories the process may not modify -/
  locked : List Path
  /-- physical paths below a directory the process may not search -/
  denied : List Path
  /-- the descriptor the next `open` or `creat` returns -/
  next_fd : Nat
  /-- descriptors whose `close` reports a deferred write error -/
  bad_fds : List Int
  /-- extended attributes: physical path, attribute name, value -/
  xattrs : List (Path × Path × List Nat) := []
  deriving DecidableEq, Repr

namespace Toy

def present (p : Path) (s : Toy) : Bool := (s.files.lookup p).isSome || (s.links.lookup p).isSome

def remove (p : Path) (s : Toy) : Toy :=
  { s with files := s.files.filter (fun x => x.1 ≠ p), links := s.links.filter (fun x => x.1 ≠ p) }

def valid_fd (fd : Int) (s : Toy) : Bool := decide (0 ≤ fd) && decide (fd < s.next_fd)

def lstat (p : Path) (s : Toy) : Except Int stat :=
  if p ∈ s.denied then .error EACCES else
  match s.files.lookup p with
  | some st => .ok st
  | none => if (s.links.lookup p).isSome then .ok ⟨0, 0o120777, 0⟩ else .error ENOENT

def access (p : Path) (_mask : Int) (s : Toy) : Except Int Unit :=
  if p ∈ s.denied then .error EACCES else
  if s.present p then .ok () else .error ENOENT

def readlink (p : Path) (bufsiz : Nat) (s : Toy) : Except Int Path :=
  if p ∈ s.denied then .error EACCES else
  match s.links.lookup p with
  | some t => .ok (t.take bufsiz)
  | none => if s.present p then .error 22 else .error ENOENT

def statvfs (p : Path) (s : Toy) : Except Int statvfs_t :=
  if p ∈ s.denied then .error EACCES else
  if s.present p then .ok ⟨4096, 0⟩ else .error ENOENT

def unlink (p : Path) (s : Toy) : Except Int Toy :=
  if p ∈ s.locked then .error EACCES
  else if s.present p then .ok (s.remove p) else .error ENOENT

def mkdir (p : Path) (mode : Nat) (s : Toy) : Except Int Toy :=
  if p ∈ s.locked then .error EACCES
  else if s.present p then .error EEXIST
  else .ok { s with files := (p, ⟨s.files.length + 1, mode, 0⟩) :: s.files, dirs := (p, []) :: s.dirs }

def creat (p : Path) (mode : Nat) (s : Toy) : Except Int (Nat × Toy) :=
  if p ∈ s.locked then .error EACCES
  else .ok (s.next_fd,
    { s.remove p with files := (p, ⟨s.files.length + 1, mode, 0⟩) :: (s.remove p).files,
                      next_fd := s.next_fd + 1 })

def symlink (target linkpath : Path) (s : Toy) : Except Int Toy :=
  if linkpath ∈ s.locked then .error EACCES
  else if s.present linkpath then .error EEXIST
  else .ok { s with links := (linkpath, target) :: s.links }

def rename (oldpath newpath : Path) (s : Toy) : Except Int Toy :=
  if oldpath ∈ s.locked ∨ newpath ∈ s.locked then .error EACCES
  else match s.files.lookup oldpath with
    | none => .error ENOENT
    | some st =>
      { (s.remove oldpath).remove newpath with
        files := (newpath, st) :: ((s.remove oldpath).remove newpath).files } |> .ok

def link (oldpath newpath : Path) (s : Toy) : Except Int Toy :=
  if newpath ∈ s.locked then .error EACCES
  else match s.files.lookup oldpath with
    | none => .error ENOENT
    | some st =>
      if s.present newpath then .error EEXIST
      else .ok { s with files := (newpath, st) :: s.files }

def open_ (p : Path) (_flags : Int) (s : Toy) : Except Int (Nat × Toy) :=
  if p ∈ s.denied then .error EACCES else
  if (s.files.lookup p).isSome then .ok (s.next_fd, { s with next_fd := s.next_fd + 1 })
  else .error ENOENT

def opendir (p : Path) (s : Toy) : Except Int (DIR × Toy) :=
  if p ∈ s.denied then .error EACCES else
  match s.dirs.lookup p with
  | some names => .ok (⟨4096 + s.next_fd, names⟩, s)
  | none => .error ENOENT

def close (fd : Int) (s : Toy) : Except Int Toy :=
  if fd ∈ s.bad_fds then .error EIO
  else if s.valid_fd fd then .ok s else .error EBADF

def closedir (dp : Nat) (s : Toy) : Except Int Toy :=
  if 4096 ≤ dp then .ok s else .error EBADF

def pread (fd : Int) (_size : Nat) (_offset : Int) (s : Toy) : Except Int (List Nat × Toy) :=
  if s.valid_fd fd then .ok ([], s) else .error EBADF

def pwrite (fd : Int) (_buf : List Nat) (size : Nat) (_offset : Int) (s : Toy) :
    Except Int (Nat × Toy) :=
  if s.valid_fd fd then .ok (size, s) else .error EBADF

def fd_op (fd : Int) (s : Toy) : Except Int Toy :=
  if s.valid_fd fd then .ok s else .error EBADF

def open_mode (p : Path) (_flags : Int) (mode : Nat) (s : Toy) : Except Int (Nat × Toy) :=
  if p ∈ s.locked then .error EACCES
  else if s.present p then .error EEXIST
  else .ok (s.next_fd,
    { s with files := (p, ⟨s.files.length + 1, mode, 0⟩) :: s.files, next_fd := s.next_fd + 1 })

def mknod (p : Path) (mode _dev : Nat) (s : Toy) : Except Int Toy :=
  if p ∈ s.locked then .error EACCES
  else if s.present p then .error EEXIST
  else .ok { s with files := (p, ⟨s.files.length + 1, mode, 0⟩) :: s.files }

/-- Names of the attributes of `p`, each followed by a NUL byte. -/
def xattr_names (p : Path) (s : Toy) : List Nat :=
  ((s.xattrs.filter (fun x => x.1 == p)).map (fun x => x.2.1.map Char.toNat ++ [0])).flatten

def lgetxattr (p name : Path) (size : Nat) (s : Toy) : Except Int (Nat × List Nat) :=
  if s.present p then
    match (s.xattrs.filter (fun x => x.1 == p && x.2.1 == name)).head? with
    | some x =>
      if size = 0 then .ok (x.2.2.length, [])
      else if x.2.2.length ≤ size then .ok (x.2.2.length, x.2.2) else .error 34
    | none => .error 61
  else .error ENOENT

def llistxattr (p : Path) (size : Nat) (s : Toy) : Except Int (Nat × List Nat) :=
  if s.present p then
    if size = 0 then .ok ((s.xattr_names p).length, [])
    else if (s.xattr_names p).length ≤ size then .ok ((s.xattr_names p).length, s.xattr_names p)
    else .error 34
  else .error ENOENT

/-- The primitives of the small kernel. -/
def sys : Sys Toy where
  lstat := lstat
  access := access
  readlink := readlink
  statvfs := statvfs
  unlink := unlink
  mkdir := mkdir
  creat := creat
  symlink := symlink
  rename := rename
  link := link
  open_ := open_
  opendir := opendir
  close := close
  closedir := closedir
  pread := pread
  pwrite := pwrite
  ftruncate := fun fd _ s => fd_op fd s
  fsync := fd_op
  fdatasync := fd_op
  open_mode := open_mode
  mkfifo := fun p mode s => mknod p mode 0 s
  mknod := mknod
  lgetxattr := lgetxattr
  llistxattr := llistxattr

end Toy

/-- Two roots `/r1` and `/r2`. -/
def two_roots : my_data := { rootdir := ["/r1".toList, "/r2".toList] }

/-- Both roots hold `/a`. -/
def toy_both : Toy :=
  { files := [("/r1/a".toList, ⟨11, 0o100644, 1⟩), ("/r2/a".toList, ⟨22, 0o100644, 1⟩)],
    links := [], dirs := [("/r1".toList, ["a".toList]), ("/r2".toList, ["a".toList])],
    locked := [], denied := [], next_fd := 3, bad_fds := [] }

/-- Only the second root holds `/a`. -/
def toy_second : Toy :=
  { files := [("/r2/a".toList, ⟨22, 0o100644, 1⟩)],
    links := [], dirs := [("/r1".toList, []), ("/r2".toList, ["a".toList])],
    locked := [], denied := [], next_fd := 3, bad_fds := [] }

/-- Only the second root holds `/a`; `/r1/zz` cannot be looked up. -/
def toy_denied : Toy :=
  { files := [("/r2/a".toList, ⟨22, 0o100644, 1⟩)],
    links := [], dirs := [("/r1".toList, []), ("/r2".toList, ["a".toList])],
    locked := [], denied := ["/r1/zz".toList], next_fd := 3, bad_fds := [] }

/-- A process that has issued no call yet. -/
def start {σ : Type} (os : σ) : Proc σ := { os := os, errno := 0, trace := [] }

/-- Both roots hold `/a`; the directory `/r1` is not writable, so that `/r1/a`
can be neither removed nor replaced. -/
def toy_locked : Toy :=
  { files := [("/r1/a".toList, ⟨11, 0o100644, 1⟩), ("/r2/a".toList, ⟨22, 0o100644, 1⟩)],
    links := [], dirs := [("/r1".toList, ["a".toList]), ("/r2".toList, ["a".toList])],
    locked := ["/r1/a".toList], denied := [], next_fd := 3, bad_fds := [] }

/-- Nothing exists below the roots, and descriptor 0 is free (the process was
started with its standard input closed): the next `creat` returns 0. -/
def toy_fd0 : Toy :=
  { files := [], links := [], dirs := [("/r1".toList, []), ("/r2".toList, [])],
    locked := [], denied := [], next_fd := 0, bad_fds := [] }

/-- Only the first root holds `/a`, and descriptor 0 is free: the next `open`
returns 0. -/
def toy_fd0_first : Toy :=
  { files := [("/r1/a".toList, ⟨11, 0o100644, 1⟩)],
    links := [], dirs := [("/r1".toList, ["a".toList]), ("/r2".toList, [])],
    locked := [], denied := [], next_fd := 0, bad_fds := [] }

/-- Descriptor 3 is open on a file whose `close` reports a deferred write error. -/
def toy_bad_close : Toy :=
  { files := [("/r1/a".toList, ⟨11, 0o100644, 1⟩)],
    links := [], dirs := [("/r1".toList, ["a".toList]), ("/r2".toList, [])],
    locked := [], denied := [], next_fd := 4, bad_fds := [3] }

/-! ## Outcomes of a two-path callback, as the specification words them -/

section TwoPath
variable {σ : Type}

/-- The callback applied the primitive exactly once, in root `k`, on the pair
`(root[k] + a, root[k] + b)`, after the primitive had failed on the pair of
every earlier root; it returned 0 and tried no later root. -/
def applied_in_one_root (roots : List Path) (prim : Path → Path → σ → Except Int σ)
    (mk : Path → Path → Call) (a b : Path) (p : Proc σ) (out : Int × Proc σ) : Prop :=
  ∃ k r, roots[k]? = some r ∧
    (∀ r1 ∈ roots.take k, ∃ e, prim (r1 ++ a) (r1 ++ b) p.os = .error e) ∧
    prim (r ++ a) (r ++ b) p.os = .ok out.2.os ∧ out.1 = 0 ∧
    out.2.trace = p.trace ++ (roots.take (k + 1)).map (fun r1 => mk (r1 ++ a) (r1 ++ b))

/-- The primitive failed on the pair `(root[k] + a, root[k] + b)` of every
root, tried in order; nothing was applied and the callback returned `-errno`,
the code of the attempt on the last root. -/
def failed_in_every_root (roots : List Path) (prim : Path → Path → σ → Except Int σ)
    (mk : Path → Path → Call) (a b : Path) (p : Proc σ) (out : Int × Proc σ) : Prop :=
  (∀ r1 ∈ roots, ∃ e, prim (r1 ++ a) (r1 ++ b) p.os = .error e) ∧
    out.2.os = p.os ∧ out.1 = -out.2.errno ∧
    (∀ rl e, roots.getLast? = some rl → prim (rl ++ a) (rl ++ b) p.os = .error e →
      out.2.errno = e) ∧
    out.2.trace = p.trace ++ roots.map (fun r1 => mk (r1 ++ a) (r1 ++ b))

end TwoPath

/-! ## Directory listing of the union, as the specification words it -/

section Listing
variable {σ : Type}

/-- The names passed to the FUSE filler among `calls`, in order. -/
def names_passed : List Call → List Path
  | [] => []
  | Call.filler name :: cs => name :: names_passed cs
  | _ :: cs => names_passed cs

/-- Per root, in priority order, the entries of the directory `root + P`; a root
where the directory cannot be opened contributes the empty list.  Each `opendir`
is issued in the kernel state the earlier ones left. -/
def root_listings (K : Sys σ) (P : Path) : List Path → σ → List (List Path)
  | [], _ => []
  | r :: rs, os =>
    match K.opendir (r ++ P) os with
    | .ok (dp, os1) => dp.entries :: root_listings K P rs os1
    | .error _ => [] :: root_listings K P rs os

end Listing

/-- A filler that stores every name and never reports a full buffer. -/
def filler_all (buf : List Path) (name : Path) : Int × List Path := (0, buf ++ [name])

/-- Both roots hold a directory `/d`; the name `a` is in both, `b` in the first. -/
def toy_dirs : Toy :=
  { files := [("/r1/d/a".toList, ⟨11, 0o100644, 1⟩), ("/r1/d/b".toList, ⟨12, 0o100644, 1⟩),
      ("/r2/d/a".toList, ⟨22, 0o100644, 1⟩)],
    links := [],
    dirs := [("/r1/d".toList, [".".toList, "..".toList, "a".toList, "b".toList]),
      ("/r2/d".toList, [".".toList, "..".toList, "a".toList])],
    locked := [], denied := [], next_fd := 3, bad_fds := [] }

/-- Both roots hold `/a`; the copy of the first root carries the extended
attribute `user.k` with a value of two bytes. -/
def toy_xattr : Toy :=
  { files := [("/r1/a".toList, ⟨11, 0o100644, 1⟩), ("/r2/a".toList, ⟨22, 0o100644, 1⟩)],
    links := [], dirs := [("/r1".toList, ["a".toList]), ("/r2".toList, ["a".toList])],
    locked := [], denied := [], next_fd := 3, bad_fds := [],
    xattrs := [("/r1/a".toList, "user.k".toList, [1, 2])] }


/-! ## The path resolver beyond the bound

`get_path` tests no length.  When the root and the path do not fit in
`fpath[PATH_MAX]`, `strncat` still appends the first `PATH_MAX` characters of the
path, writing past the end of the array, and the callback passes the address of
`fpath` to the primitive, which reads the string back from there.  The
definitions below follow the characters written from `fpath[0]` on, whether or
not they stay inside the array. -/

section Flat
variable {σ : Type}

/-- The string `get_path(fpath, path, idx)` writes from `fpath[0]` on: the root
copied by `strncpy`, then the first `PATH_MAX` characters of `path` appended by
`strncat`.  `none` only when there is no root to copy or the root leaves `fpath`
without a terminating NUL for `strncat` to start from. -/
def get_path_flat (PATH_MAX : Nat) (D : my_data) (path : Path) (idx : Nat) : Option Path :=
  let idx := if idx ≥ D.dir_cnt then 0 else idx
  match D.rootdir[idx]? with
  | none => none
  | some root =>
    match strncpy PATH_MAX root PATH_MAX with
    | none => none
    | some fpath => some (fpath ++ path.take PATH_MAX)

/-- The `for` loop of `my_getattr`, `lstat` reading the string that `get_path`
wrote from `fpath[0]` on. -/
def my_getattr_flat_loop (PATH_MAX : Nat) (D : my_data) (K : Sys σ) (path : Path) :
    Nat → Nat → Proc σ → Option (Int × Option stat × Proc σ)
  | 0, _, p => some (-p.errno, none, p)
  | n + 1, iter, p =>
    match get_path_flat PATH_MAX D path iter with
    | none => none
    | some fpath =>
      match K.lstat fpath p.os with
      | .ok st => some (0, some st, p.done (Call.lstat fpath) p.os)
      | .error e =>
        my_getattr_flat_loop PATH_MAX D K path n (iter + 1) (p.failed (Call.lstat fpath) e)

/-- `my_getattr(path, statbuf)`, `lstat` reading the string that `get_path` wrote
from `fpath[0]` on. -/
def my_getattr_flat (PATH_MAX : Nat) (D : my_data) (K : Sys σ) (path : Path) (p : Proc σ) :
    Option (Int × Option stat × Proc σ) :=
  my_getattr_flat_loop PATH_MAX D K path D.dir_cnt 0 p

end Flat

/-- The small kernel with the path limit of Linux: `lstat` on a path of 4096
characters or more fails with `ENAMETOOLONG`. -/
def Toy.sys_limit : Sys Toy :=
  { Toy.sys with
    lstat := fun p s => if 4096 ≤ p.length then .error ENAMETOOLONG else Toy.lstat p s }

/-- A virtual path of 4097 characters: `/` followed by 4096 times `a`. -/
def long_path : Path := '/' :: List.replicate 4096 'a'

/-- The first 4096 characters of `long_path`: `/` followed by 4095 times `a`. -/
def long_path_cut : Path := '/' :: List.replicate 4095 'a'


/-! ## Lemmas on the path resolver and the scan -/

section Lemmas
variable {σ : Type}

theorem get_path_fit (PATH_MAX : Nat) (D : my_data) (P : Path) (j : Nat) (r : Path)
    (hr : D.rootdir[j]? = some r) (hfit : r.length + P.length < PATH_MAX) :
    get_path PATH_MAX D P j = some (r ++ P) := by
  have hj : j < D.rootdir.length := by
    rcases Nat.lt_or_ge j D.rootdir.length with h | h
    · exact h
    · rw [List.getElem?_eq_none h] at hr; cases hr
  have h1 : ¬ (j ≥ D.dir_cnt) := by simpa [my_data.dir_cnt] using hj
  have h3 : List.take PATH_MAX P = P := by
    apply List.take_of_length_le; omega
  simp only [get_path, h1, if_false, hr, strncpy, strncat, h3]
  have h4 : PATH_MAX ≤ PATH_MAX ∧ r.length < PATH_MAX := ⟨le_refl _, by omega⟩
  simp only [h4, and_self, if_true]
  have h5 : r.length + P.length + 1 ≤ PATH_MAX := by omega
  simp only [h5, if_true]

theorem mem_take_of_getElem? {α : Type} (l : List α) (i j : Nat) (r : α)
    (h : l[j]? = some r) (hj : j < i) : r ∈ l.take i := by
  rw [List.mem_iff_getElem?]
  exact ⟨j, by rw [List.getElem?_take, if_pos hj]; exact h⟩

theorem lt_length_of_getElem? {α : Type} (l : List α) (i : Nat) (r : α)
    (h : l[i]? = some r) : i < l.length := by
  rcases Nat.lt_or_ge i l.length with h1 | h1
  · exact h1
  · rw [List.getElem?_eq_none h1] at h; cases h

theorem drop_take_succ {α : Type} (l : List α) (i iter : Nat) (hlt : iter < l.length)
    (hi : iter < i) : (l.take i).drop iter = l[iter] :: (l.take i).drop (iter + 1) := by
  have hlen : iter < (l.take i).length := by
    rw [List.length_take]; omega
  rw [List.drop_eq_getElem_cons hlen]
  simp [List.getElem_take]

/-- First success: the primitive fails on the items before index `i` and
succeeds on item `i`. -/
theorem scan_first {φ α β : Type} (resolve : Nat → Option φ) (prim : φ → σ → Except Int α)
    (call : φ → Call) (win : φ → α → Proc σ → β) (lose : Proc σ → β)
    (fs : List φ) (os : σ) (i : Nat) (fi : φ) (a : α)
    (hres : ∀ j, j ≤ i → ∀ f, fs[j]? = some f → resolve j = some f)
    (hi : fs[i]? = some fi) (hok : prim fi os = .ok a)
    (hfail : ∀ f ∈ fs.take i, ∃ e, prim f os = .error e) :
    ∀ (n iter : Nat) (p : Proc σ), i < iter + n → iter ≤ i → p.os = os →
      ∃ p1, scan resolve prim call win lose n iter p = some (win fi a p1) ∧ p1.os = os ∧
        (iter = i → p1 = p) ∧
        p1.trace = p.trace ++ ((fs.take i).drop iter).map call := by
  have hilt : i < fs.length := lt_length_of_getElem? _ _ _ hi
  intro n
  induction n with
  | zero => intro iter p h1 h2 _; omega
  | succ n ih =>
    intro iter p h1 h2 hos
    have hlt : iter < fs.length := by omega
    have hr : fs[iter]? = some fs[iter] := List.getElem?_eq_getElem hlt
    have hgp := hres iter h2 _ hr
    rcases Nat.lt_or_ge iter i with hlt2 | hge
    · obtain ⟨e, he⟩ := hfail _ (mem_take_of_getElem? _ _ _ _ hr hlt2)
      obtain ⟨p1, hp1, hos1, _, htr⟩ :=
        ih (iter + 1) (p.failed (call fs[iter]) e) (by omega) (by omega) hos
      refine ⟨p1, ?_, hos1, ?_, ?_⟩
      · simp only [scan, hgp, hos, he]; exact hp1
      · intro h; omega
      · rw [htr, drop_take_succ fs i iter hlt hlt2]; simp [Proc.failed]
    · have heq : iter = i := by omega
      subst heq
      rw [hr] at hi
      have hri : fs[iter] = fi := by injection hi
      refine ⟨p, ?_, hos, fun _ => rfl, ?_⟩
      · simp only [scan, hgp, hos, hri, hok]
      · have : (fs.take iter).drop iter = [] := by
          apply List.drop_eq_nil_of_le; rw [List.length_take]; omega
        simp [this]

/-- Exhausted scan: the primitive fails on every item from index `iter` on. -/
theorem scan_all_fail {φ α β : Type} (resolve : Nat → Option φ) (prim : φ → σ → Except Int α)
    (call : φ → Call) (win : φ → α → Proc σ → β) (lose : Proc σ → β)
    (fs : List φ) (os : σ)
    (hres : ∀ j f, fs[j]? = some f → resolve j = some f)
    (hfail : ∀ f ∈ fs, ∃ e, prim f os = .error e) :
    ∀ (n iter : Nat) (p : Proc σ), iter + n = fs.length → p.os = os →
      ∃ p1, scan resolve prim call win lose n iter p = some (lose p1) ∧ p1.os = os ∧
        (n = 0 → p1 = p) ∧
        (∀ f e, (fs.drop iter).getLast? = some f → prim f os = .error e → p1.errno = e) ∧
        p1.trace = p.trace ++ (fs.drop iter).map call := by
  intro n
  induction n with
  | zero =>
    intro iter p h1 hos
    have : fs.drop iter = [] := by apply List.drop_eq_nil_of_le; omega
    exact ⟨p, by simp [scan], hos, fun _ => rfl, by simp [this], by simp [this]⟩
  | succ n ih =>
    intro iter p h1 hos
    have hlt : iter < fs.length := by omega
    have hr : fs[iter]? = some fs[iter] := List.getElem?_eq_getElem hlt
    have hgp := hres iter _ hr
    have hdrop : fs.drop iter = fs[iter] :: fs.drop (iter + 1) := List.drop_eq_getElem_cons hlt
    obtain ⟨e, he⟩ := hfail _ (List.getElem_mem hlt)
    obtain ⟨p1, hp1, hos1, hz, herr, htr⟩ :=
      ih (iter + 1) (p.failed (call fs[iter]) e) (by omega) hos
    refine ⟨p1, ?_, hos1, ?_, ?_, ?_⟩
    · simp only [scan, hgp, hos, he]; exact hp1
    · intro h; omega
    · intro f e1 hlast hf
      rw [hdrop] at hlast
      rcases Nat.eq_zero_or_pos n with hn | hn
      · have hnil : fs.drop (iter + 1) = [] := by apply List.drop_eq_nil_of_le; omega
        rw [hnil] at hlast
        simp at hlast
        subst hlast
        rw [he] at hf
        injection hf with hf
        rw [hz hn, ← hf]; rfl
      · have hne : fs.drop (iter + 1) ≠ [] := by
          intro h
          have := congrArg List.length h
          simp at this; omega
        obtain ⟨b, l, hbl⟩ := List.exists_cons_of_ne_nil hne
        rw [hbl, List.getLast?_cons_cons, ← hbl] at hlast
        exact herr f e1 hlast hf
    · rw [htr, hdrop]; simp only [Proc.failed, List.map_cons, List.append_assoc, List.singleton_append]

theorem getElem?_of_mem_take {α : Type} (l : List α) (i : Nat) (r : α) (h : r ∈ l.take i) :
    ∃ j, j < i ∧ l[j]? = some r := by
  rw [List.mem_iff_getElem?] at h
  obtain ⟨j, hj⟩ := h
  rw [List.getElem?_take] at hj
  by_cases hlt : j < i
  · rw [if_pos hlt] at hj; exact ⟨j, hlt, hj⟩
  · rw [if_neg hlt] at hj; cases hj

/-- Within the bound, `get_path` resolves the items of the mapped root list. -/
theorem resolve_fit (PATH_MAX : Nat) (D : my_data) (P : Path) (j : Nat) (f : Path)
    (hfit : ∀ r, D.rootdir[j]? = some r → r.length + P.length < PATH_MAX)
    (hf : (D.rootdir.map (fun r => r ++ P))[j]? = some f) :
    get_path PATH_MAX D P j = some f := by
  rw [List.getElem?_map] at hf
  cases hr : D.rootdir[j]? with
  | none => rw [hr] at hf; cases hf
  | some r =>
    rw [hr] at hf
    simp only [Option.map_some'] at hf
    injection hf with hf
    rw [← hf]
    exact get_path_fit PATH_MAX D P j r hr (hfit r hr)

theorem my_getattr_loop_eq_scan (PATH_MAX : Nat) (D : my_data) (K : Sys σ) (P : Path)
    (n iter : Nat) (p : Proc σ) :
    my_getattr_loop PATH_MAX D K P n iter p
      = scan (get_path PATH_MAX D P) K.lstat Call.lstat
          (fun f st q => (0, some st, q.done (Call.lstat f) q.os))
          (fun q => (-q.errno, none, q)) n iter p := by
  induction n generalizing iter p with
  | zero => rfl
  | succ n ih =>
    simp only [my_getattr_loop, scan]
    cases get_path PATH_MAX D P iter with
    | none => rfl
    | some f =>
      dsimp only
      cases K.lstat f p.os with
      | ok st => rfl
      | error e => exact ih _ _

theorem my_access_loop_eq_scan (PATH_MAX : Nat) (D : my_data) (K : Sys σ) (P : Path) (mask : Int)
    (n iter : Nat) (p : Proc σ) :
    my_access_loop PATH_MAX D K P mask n iter p
      = scan (get_path PATH_MAX D P) (fun f os => K.access f mask os)
          (fun f => Call.access f mask)
          (fun f _ q => (0, q.done (Call.access f mask) q.os))
          (fun q => (-q.errno, q)) n iter p := by
  induction n generalizing iter p with
  | zero => rfl
  | succ n ih =>
    simp only [my_access_loop, scan]
    cases get_path PATH_MAX D P iter with
    | none => rfl
    | some f =>
      dsimp only
      cases K.access f mask p.os with
      | ok st => rfl
      | error e => exact ih _ _

theorem my_readlink_loop_eq_scan (PATH_MAX : Nat) (D : my_data) (K : Sys σ) (P : Path)
    (size : Nat) (n iter : Nat) (p : Proc σ) :
    my_readlink_loop PATH_MAX D K P size n iter p
      = scan (get_path PATH_MAX D P) (fun f os => K.readlink f (size_pred size) os)
          (fun f => Call.readlink f (size_pred size))
          (fun f t q => (0, some t, q.done (Call.readlink f (size_pred size)) q.os))
          (fun q => (-q.errno, none, q)) n iter p := by
  induction n generalizing iter p with
  | zero => rfl
  | succ n ih =>
    simp only [my_readlink_loop, scan]
    cases get_path PATH_MAX D P iter with
    | none => rfl
    | some f =>
      dsimp only
      cases K.readlink f (size_pred size) p.os with
      | ok st => rfl
      | error e => exact ih _ _

theorem my_statfs_loop_eq_scan (PATH_MAX : Nat) (D : my_data) (K : Sys σ) (P : Path)
    (n iter : Nat) (p : Proc σ) :
    my_statfs_loop PATH_MAX D K P n iter p
      = scan (get_path PATH_MAX D P) K.statvfs Call.statvfs
          (fun f sv q => (0, some sv, q.done (Call.statvfs f) q.os))
          (fun q => (-q.errno, none, q)) n iter p := by
  induction n generalizing iter p with
  | zero => rfl
  | succ n ih =>
    simp only [my_statfs_loop, scan]
    cases get_path PATH_MAX D P iter with
    | none => rfl
    | some f =>
      dsimp only
      cases K.statvfs f p.os with
      | ok st => rfl
      | error e => exact ih _ _

/-- The scan over the roots when the primitive fails on `root[k] + P` for
every `k`: the result is built from the state the last failure left. -/
theorem scan_roots_all_fail {α β : Type} (PATH_MAX : Nat) (D : my_data) (P : Path)
    (prim : Path → σ → Except Int α) (call : Path → Call)
    (win : Path → α → Proc σ → β) (lose : Proc σ → β) (p : Proc σ) (rl : Path) (e : Int)
    (hlast : D.rootdir.getLast? = some rl)
    (hfit : ∀ r ∈ D.rootdir, r.length + P.length < PATH_MAX)
    (hall : ∀ r ∈ D.rootdir, ∃ e1, prim (r ++ P) p.os = .error e1)
    (he : prim (rl ++ P) p.os = .error e) :
    ∃ p1, scan (get_path PATH_MAX D P) prim call win lose D.dir_cnt 0 p = some (lose p1) ∧
      p1.os = p.os ∧ p1.errno = e ∧
      p1.trace = p.trace ++ D.rootdir.map (fun r => call (r ++ P)) := by
  obtain ⟨p1, h1, h2, _, h4, h5⟩ :=
    scan_all_fail (get_path PATH_MAX D P) prim call win lose
      (D.rootdir.map (fun r => r ++ P)) p.os
      (fun j f hf => resolve_fit PATH_MAX D P j f
        (fun r hr => hfit r (List.mem_iff_getElem?.2 ⟨j, hr⟩)) hf)
      (by
        intro f hf
        rw [List.mem_map] at hf
        obtain ⟨r, hr, hrf⟩ := hf
        rw [← hrf]
        exact hall r hr)
      D.dir_cnt 0 p (by simp [my_data.dir_cnt]) rfl
  refine ⟨p1, h1, h2, ?_, ?_⟩
  · apply h4 (rl ++ P) e _ he
    rw [List.drop_zero, List.getLast?_map, hlast]; rfl
  · rw [h5, List.drop_zero, List.map_map]; rfl

/-- First success of `my_getattr` at root `i`: the result alone. -/
theorem getattr_first (PATH_MAX : Nat) (D : my_data) (K : Sys σ) (P : Path) (p : Proc σ)
    (i : Nat) (ri : Path) (st : stat)
    (hi : D.rootdir[i]? = some ri)
    (hfit : ∀ j r, j ≤ i → D.rootdir[j]? = some r → r.length + P.length < PATH_MAX)
    (hok : K.lstat (ri ++ P) p.os = .ok st)
    (hfail : ∀ j r, j < i → D.rootdir[j]? = some r → ∃ e, K.lstat (r ++ P) p.os = .error e) :
    ∃ p1, my_getattr PATH_MAX D K P p = some (0, some st, p1) ∧ p1.os = p.os := by
  have hilt : i < D.rootdir.length := lt_length_of_getElem? _ _ _ hi
  obtain ⟨p1, h1, h2, _, _⟩ :=
    scan_first (get_path PATH_MAX D P) K.lstat Call.lstat
      (fun f st q => (0, some st, q.done (Call.lstat f) q.os)) (fun q => (-q.errno, none, q))
      (D.rootdir.map (fun r => r ++ P)) p.os i (ri ++ P) st
      (fun j hj f hf => resolve_fit PATH_MAX D P j f (fun r hr => hfit j r hj hr) hf)
      (by rw [List.getElem?_map, hi]; rfl) hok
      (by
        intro f hf
        rw [← List.map_take, List.mem_map] at hf
        obtain ⟨r, hr, hrf⟩ := hf
        obtain ⟨j, hj, hjr⟩ := getElem?_of_mem_take _ _ _ hr
        rw [← hrf]
        exact hfail j r hj hjr)
      D.dir_cnt 0 p (by simpa [my_data.dir_cnt] using hilt) (Nat.zero_le _) rfl
  refine ⟨p1.done (Call.lstat (ri ++ P)) p1.os, ?_, ?_⟩
  · rw [my_getattr, my_getattr_loop_eq_scan]; exact h1
  · simpa [Proc.done] using h2

/-- `my_unlink` when `unlink` succeeds on the first root. -/
theorem unlink_first_root (PATH_MAX : Nat) (D : my_data) (K : Sys σ) (P : Path) (p : Proc σ)
    (r1 : Path) (rest : List Path) (os1 : σ)
    (hD : D.rootdir = r1 :: rest) (hfit : r1.length + P.length < PATH_MAX)
    (hun : K.unlink (r1 ++ P) p.os = .ok os1) :
    my_unlink PATH_MAX D K P p = some (0, p.done (Call.unlink (r1 ++ P)) os1) := by
  have hgp := get_path_fit PATH_MAX D P 0 r1 (by rw [hD]; simp) hfit
  simp only [my_unlink, my_data.dir_cnt, hD, List.length_cons, my_unlink_loop, hgp, hun]

theorem lookup_filter_ne {β : Type} (l : List (Path × β)) (p q : Path) (h : q ≠ p) :
    (l.filter (fun x => x.1 ≠ p)).lookup q = l.lookup q := by
  induction l with
  | nil => rfl
  | cons x t ih =>
    obtain ⟨k, v⟩ := x
    by_cases hk : k = p
    · subst hk
      have hb : (q == k) = false := beq_false_of_ne h
      simp only [ne_eq, decide_not] at ih
      simp [List.filter, List.lookup, hb, ih]
    · by_cases hq : q = k
      · subst hq
        simp [List.filter, List.lookup, hk]
      · have hb : (q == k) = false := beq_false_of_ne hq
        simp only [ne_eq, decide_not] at ih
        simp [List.filter, List.lookup, hk, hb, ih]

/-- In the small kernel, removing `p` leaves the `lstat` of every other path. -/
theorem Toy.lstat_remove_ne (s : Toy) (p q : Path) (h : q ≠ p) :
    Toy.lstat q (s.remove p) = Toy.lstat q s := by
  simp only [Toy.lstat, Toy.remove, lookup_filter_ne _ p q h]

/-- Every scan either succeeds at a first item or fails on all items. -/
theorem scan_outcome {φ α β : Type} (resolve : Nat → Option φ) (prim : φ → σ → Except Int α)
    (call : φ → Call) (win : φ → α → Proc σ → β) (lose : Proc σ → β)
    (fs : List φ) (p : Proc σ)
    (hres : ∀ j f, fs[j]? = some f → resolve j = some f) :
    (∃ k f a p1, fs[k]? = some f ∧ (∀ f1 ∈ fs.take k, ∃ e, prim f1 p.os = .error e) ∧
        prim f p.os = .ok a ∧
        scan resolve prim call win lose fs.length 0 p = some (win f a p1) ∧ p1.os = p.os ∧
        (k = 0 → p1 = p) ∧ p1.trace = p.trace ++ (fs.take k).map call) ∨
    ((∀ f ∈ fs, ∃ e, prim f p.os = .error e) ∧
      ∃ p1, scan resolve prim call win lose fs.length 0 p = some (lose p1) ∧ p1.os = p.os ∧
        (fs = [] → p1 = p) ∧
        (∀ f e, fs.getLast? = some f → prim f p.os = .error e → p1.errno = e) ∧
        p1.trace = p.trace ++ fs.map call) := by
  classical
  by_cases hall : ∀ f ∈ fs, ∃ e, prim f p.os = .error e
  · right
    obtain ⟨p1, h1, h2, h3, h4, h5⟩ :=
      scan_all_fail resolve prim call win lose fs p.os hres hall fs.length 0 p (by simp) rfl
    refine ⟨hall, p1, h1, h2, ?_, ?_, ?_⟩
    · intro h; apply h3; rw [h]; rfl
    · simpa using h4
    · simpa using h5
  · left
    have hex : ∃ k : Nat, ∃ f, fs[k]? = some f ∧ ∀ e, prim f p.os ≠ .error e := by
      by_contra hno
      apply hall
      intro f hf
      by_contra hne
      obtain ⟨k, hk⟩ := List.mem_iff_getElem?.1 hf
      exact hno ⟨k, f, hk, fun e he => hne ⟨e, he⟩⟩
    obtain ⟨f, hkf, hnerr⟩ := Nat.find_spec hex
    have hmin : ∀ f1 ∈ fs.take (Nat.find hex), ∃ e, prim f1 p.os = .error e := by
      intro f1 hf1
      obtain ⟨j, hj, hjf⟩ := getElem?_of_mem_take _ _ _ hf1
      by_contra hne
      exact Nat.find_min hex hj ⟨f1, hjf, fun e he => hne ⟨e, he⟩⟩
    cases hp : prim f p.os with
    | error e => exact absurd hp (hnerr e)
    | ok a =>
      obtain ⟨p1, h1, h2, h3, h4⟩ :=
        scan_first resolve prim call win lose fs p.os (Nat.find hex) f a
          (fun j _ f1 hf1 => hres j f1 hf1) hkf hp hmin fs.length 0 p
          (by simpa using lt_length_of_getElem? _ _ _ hkf) (Nat.zero_le _) rfl
      exact ⟨Nat.find hex, f, a, p1, hkf, hmin, hp, h1, h2, fun h => h3 h.symm,
        by simpa using h4⟩

/-- A scan over the pairs `(root[k] + a, root[k] + b)`. -/
theorem scan_pairs_outcome (D : my_data) (a b : Path) (resolve : Nat → Option (Path × Path))
    (hres : ∀ j r, D.rootdir[j]? = some r → resolve j = some (r ++ a, r ++ b))
    (prim : Path → Path → σ → Except Int σ) (mk : Path → Path → Call) (p : Proc σ) :
    ∃ out, scan resolve (fun f os => prim f.1 f.2 os) (fun f => mk f.1 f.2)
        (fun f os1 q => ((0 : Int), q.done (mk f.1 f.2) os1)) (fun q => (-q.errno, q))
        D.dir_cnt 0 p = some out ∧
      (applied_in_one_root D.rootdir prim mk a b p out ∨
        failed_in_every_root D.rootdir prim mk a b p out) := by
  have hres2 : ∀ j f, (D.rootdir.map (fun r => (r ++ a, r ++ b)))[j]? = some f →
      resolve j = some f := by
    intro j f hf
    rw [List.getElem?_map] at hf
    cases hr : D.rootdir[j]? with
    | none => rw [hr] at hf; cases hf
    | some r =>
      rw [hr] at hf
      simp only [Option.map_some'] at hf
      injection hf with hf
      rw [← hf]
      exact hres j r hr
  have hlen : (D.rootdir.map (fun r => (r ++ a, r ++ b))).length = D.dir_cnt := by
    simp [my_data.dir_cnt]
  rcases scan_outcome resolve (fun f os => prim f.1 f.2 os) (fun f => mk f.1 f.2)
      (fun f os1 q => ((0 : Int), q.done (mk f.1 f.2) os1)) (fun q => (-q.errno, q))
      (D.rootdir.map (fun r => (r ++ a, r ++ b))) p hres2 with h | h
  · obtain ⟨k, f, os1, p1, hk, hfail, hok, hscan, hos, _, htr⟩ := h
    rw [hlen] at hscan
    rw [List.getElem?_map] at hk
    cases hr : D.rootdir[k]? with
    | none => rw [hr] at hk; cases hk
    | some r =>
      rw [hr] at hk
      simp only [Option.map_some'] at hk
      injection hk with hk
      subst hk
      refine ⟨_, hscan, Or.inl ⟨k, r, hr, ?_, ?_, rfl, ?_⟩⟩
      · intro r1 hr1
        exact hfail (r1 ++ a, r1 ++ b) (by
          rw [← List.map_take, List.mem_map]; exact ⟨r1, hr1, rfl⟩)
      · simpa [Proc.done] using hok
      · have htake : D.rootdir.take (k + 1) = D.rootdir.take k ++ [r] := by
          rw [List.take_succ, hr]; rfl
        simp only [Proc.done, htr, htake, List.map_append, List.map_take, List.map_map,
          List.map_cons, List.map_nil, List.append_assoc]
        rfl
  · obtain ⟨hall, p1, hscan, hos, _, herr, htr⟩ := h
    rw [hlen] at hscan
    refine ⟨_, hscan, Or.inr ⟨?_, hos, rfl, ?_, ?_⟩⟩
    · intro r1 hr1
      exact hall (r1 ++ a, r1 ++ b) (List.mem_map.2 ⟨r1, hr1, rfl⟩)
    · intro rl e hl he
      exact herr (rl ++ a, rl ++ b) e (by rw [List.getLast?_map, hl]; rfl) he
    · simp only [htr, List.map_map]; rfl

/-- With at least one root and non-zero error codes, an exhausted scan does not
return 0. -/
theorem failed_in_every_root_ne_zero (roots : List Path)
    (prim : Path → Path → σ → Except Int σ) (mk : Path → Path → Call) (a b : Path)
    (p : Proc σ) (out : Int × Proc σ) (hne : roots ≠ [])
    (hpos : ∀ x y os e, prim x y os = .error e → e ≠ 0)
    (h : failed_in_every_root roots prim mk a b p out) : out.1 ≠ 0 := by
  obtain ⟨hall, _, hret, herr, _⟩ := h
  obtain ⟨rl, hrl⟩ : ∃ rl, roots.getLast? = some rl :=
    ⟨roots.getLast hne, List.getLast?_eq_getLast _ hne⟩
  obtain ⟨e, he⟩ := hall rl (List.mem_of_getLast?_eq_some hrl)
  have h1 := herr rl e hrl he
  have h2 := hpos _ _ _ _ he
  rw [hret, h1]
  intro h0
  exact h2 (by omega)

theorem my_rename_loop_eq_scan (PATH_MAX : Nat) (D : my_data) (K : Sys σ) (a b : Path)
    (n iter : Nat) (p : Proc σ) :
    my_rename_loop PATH_MAX D K a b n iter p
      = scan (fun j => match get_path PATH_MAX D a j with
                | none => none
                | some fa => match get_path PATH_MAX D b j with
                  | none => none
                  | some fb => some (fa, fb))
          (fun f os => K.rename f.1 f.2 os) (fun f => Call.rename f.1 f.2)
          (fun f os1 q => ((0 : Int), q.done (Call.rename f.1 f.2) os1))
          (fun q => (-q.errno, q)) n iter p := by
  induction n generalizing iter p with
  | zero => rfl
  | succ n ih =>
    simp only [my_rename_loop, scan]
    cases get_path PATH_MAX D a iter with
    | none => rfl
    | some fa =>
      dsimp only
      cases get_path PATH_MAX D b iter with
      | none => rfl
      | some fb =>
        dsimp only
        cases K.rename fa fb p.os with
        | ok os1 => rfl
        | error e => exact ih _ _

theorem my_link_loop_eq_scan (PATH_MAX : Nat) (D : my_data) (K : Sys σ) (a b : Path)
    (n iter : Nat) (p : Proc σ) :
    my_link_loop PATH_MAX D K a b n iter p
      = scan (fun j => match get_path PATH_MAX D a j with
                | none => none
                | some fa => match get_path PATH_MAX D b j with
                  | none => none
                  | some fb => some (fa, fb))
          (fun f os => K.link f.1 f.2 os) (fun f => Call.link f.1 f.2)
          (fun f os1 q => ((0 : Int), q.done (Call.link f.1 f.2) os1))
          (fun q => (-q.errno, q)) n iter p := by
  induction n generalizing iter p with
  | zero => rfl
  | succ n ih =>
    simp only [my_link_loop, scan]
    cases get_path PATH_MAX D a iter with
    | none => rfl
    | some fa =>
      dsimp only
      cases get_path PATH_MAX D b iter with
      | none => rfl
      | some fb =>
        dsimp only
        cases K.link fa fb p.os with
        | ok os1 => rfl
        | error e => exact ih _ _

theorem my_symlink_loop_eq_scan (PATH_MAX : Nat) (D : my_data) (K : Sys σ) (a b : Path)
    (n iter : Nat) (p : Proc σ) :
    my_symlink_loop PATH_MAX D K a b n iter p
      = scan (fun j => match get_path PATH_MAX D b j with
                | none => none
                | some fb => match get_path PATH_MAX D a j with
                  | none => none
                  | some fa => some (fa, fb))
          (fun f os => K.symlink f.1 f.2 os) (fun f => Call.symlink f.1 f.2)
          (fun f os1 q => ((0 : Int), q.done (Call.symlink f.1 f.2) os1))
          (fun q => (-q.errno, q)) n iter p := by
  induction n generalizing iter p with
  | zero => rfl
  | succ n ih =>
    simp only [my_symlink_loop, scan]
    cases get_path PATH_MAX D b iter with
    | none => rfl
    | some fb =>
      dsimp only
      cases get_path PATH_MAX D a iter with
      | none => rfl
      | some fa =>
        dsimp only
        cases K.symlink fa fb p.os with
        | ok os1 => rfl
        | error e => exact ih _ _
/-- Within the bound, both paths of root `j` resolve. -/
theorem resolve_pair_fit (PATH_MAX : Nat) (D : my_data) (a b : Path)
    (hfa : ∀ r ∈ D.rootdir, r.length + a.length < PATH_MAX)
    (hfb : ∀ r ∈ D.rootdir, r.length + b.length < PATH_MAX) (j : Nat) (r : Path)
    (hr : D.rootdir[j]? = some r) :
    get_path PATH_MAX D a j = some (r ++ a) ∧ get_path PATH_MAX D b j = some (r ++ b) := by
  have hmem : r ∈ D.rootdir := List.mem_iff_getElem?.2 ⟨j, hr⟩
  exact ⟨get_path_fit PATH_MAX D a j r hr (hfa r hmem),
    get_path_fit PATH_MAX D b j r hr (hfb r hmem)⟩

theorem rename_outcome (PATH_MAX : Nat) (D : my_data) (K : Sys σ) (a b : Path) (p : Proc σ)
    (hfa : ∀ r ∈ D.rootdir, r.length + a.length < PATH_MAX)
    (hfb : ∀ r ∈ D.rootdir, r.length + b.length < PATH_MAX) :
    ∃ out, my_rename PATH_MAX D K a b p = some out ∧
      (applied_in_one_root D.rootdir K.rename Call.rename a b p out ∨
        failed_in_every_root D.rootdir K.rename Call.rename a b p out) := by
  rw [my_rename, my_rename_loop_eq_scan]
  apply scan_pairs_outcome D a b _ _ K.rename Call.rename p
  intro j r hr
  obtain ⟨h1, h2⟩ := resolve_pair_fit PATH_MAX D a b hfa hfb j r hr
  simp only [h1, h2]

theorem link_outcome (PATH_MAX : Nat) (D : my_data) (K : Sys σ) (a b : Path) (p : Proc σ)
    (hfa : ∀ r ∈ D.rootdir, r.length + a.length < PATH_MAX)
    (hfb : ∀ r ∈ D.rootdir, r.length + b.length < PATH_MAX) :
    ∃ out, my_link PATH_MAX D K a b p = some out ∧
      (applied_in_one_root D.rootdir K.link Call.link a b p out ∨
        failed_in_every_root D.rootdir K.link Call.link a b p out) := by
  rw [my_link, my_link_loop_eq_scan]
  apply scan_pairs_outcome D a b _ _ K.link Call.link p
  intro j r hr
  obtain ⟨h1, h2⟩ := resolve_pair_fit PATH_MAX D a b hfa hfb j r hr
  simp only [h1, h2]

theorem symlink_outcome (PATH_MAX : Nat) (D : my_data) (K : Sys σ) (a b : Path) (p : Proc σ)
    (hfa : ∀ r ∈ D.rootdir, r.length + a.length < PATH_MAX)
    (hfb : ∀ r ∈ D.rootdir, r.length + b.length < PATH_MAX) :
    ∃ out, my_symlink PATH_MAX D K a b p = some out ∧
      (applied_in_one_root D.rootdir K.symlink Call.symlink a b p out ∨
        failed_in_every_root D.rootdir K.symlink Call.symlink a b p out) := by
  rw [my_symlink, my_symlink_loop_eq_scan]
  apply scan_pairs_outcome D a b _ _ K.symlink Call.symlink p
  intro j r hr
  obtain ⟨h1, h2⟩ := resolve_pair_fit PATH_MAX D a b hfa hfb j r hr
  simp only [h1, h2]

theorem names_passed_fillers (l : List Path) (cs : List Call) :
    names_passed (l.map Call.filler ++ cs) = l ++ names_passed cs := by
  induction l with
  | nil => rfl
  | cons x t ih =>
    show x :: names_passed (t.map Call.filler ++ cs) = x :: (t ++ names_passed cs)
    rw [ih]

/-- The `readdir` loop under a filler that accepts every entry. -/
theorem readdir_while_accept {β : Type} (filler : β → Path → Int × β)
    (hacc : ∀ b name, (filler b name).1 = 0) (entries : List Path) (buf : β) (p : Proc σ) :
    my_readdir_while filler entries 0 buf p
      = .ok (0, entries.foldl (fun b name => (filler b name).2) buf,
          { os := p.os, errno := p.errno, trace := p.trace ++ entries.map Call.filler }) := by
  induction entries generalizing buf p with
  | nil => simp [my_readdir_while]
  | cons x t ih =>
    simp only [my_readdir_while, hacc, ne_eq, not_true_eq_false, if_false, ih, Proc.done,
      List.foldl_cons, List.map_cons, List.append_assoc, List.singleton_append]

/-- The `for` loop of `my_readdir` under a filler that accepts every entry. -/
theorem readdir_loop_accept {β : Type} (PATH_MAX : Nat) (D : my_data) (K : Sys σ) (P : Path)
    (filler : β → Path → Int × β) (hacc : ∀ b name, (filler b name).1 = 0)
    (hfit : ∀ r ∈ D.rootdir, r.length + P.length < PATH_MAX) :
    ∀ (n iter : Nat) (buf : β) (p : Proc σ), iter + n = D.rootdir.length →
      ∃ buf1 p1 calls, my_readdir_loop PATH_MAX D K P filler n iter 0 buf p = some (0, buf1, p1) ∧
        p1.trace = p.trace ++ calls ∧
        names_passed calls = (root_listings K P (D.rootdir.drop iter) p.os).flatten ∧
        buf1 = (names_passed calls).foldl (fun b name => (filler b name).2) buf := by
  intro n
  induction n with
  | zero =>
    intro iter buf p h
    have : D.rootdir.drop iter = [] := by apply List.drop_eq_nil_of_le; omega
    exact ⟨buf, p, [], rfl, by simp, by simp [this, root_listings, names_passed],
      by simp [names_passed]⟩
  | succ n ih =>
    intro iter buf p h
    have hlt : iter < D.rootdir.length := by omega
    have hr : D.rootdir[iter]? = some D.rootdir[iter] := List.getElem?_eq_getElem hlt
    have hgp := get_path_fit PATH_MAX D P iter _ hr (hfit _ (List.getElem_mem hlt))
    have hdrop : D.rootdir.drop iter = D.rootdir[iter] :: D.rootdir.drop (iter + 1) :=
      List.drop_eq_getElem_cons hlt
    cases hop : K.opendir (D.rootdir[iter] ++ P) p.os with
    | error e =>
      obtain ⟨buf1, p1, calls, h1, h2, h3, h4⟩ :=
        ih (iter + 1) buf (p.failed (Call.opendir (D.rootdir[iter] ++ P)) e) (by omega)
      refine ⟨buf1, p1, Call.opendir (D.rootdir[iter] ++ P) :: calls, ?_, ?_, ?_, ?_⟩
      · simp only [my_readdir_loop, hgp, hop]; exact h1
      · rw [h2]; simp [Proc.failed]
      · rw [hdrop]
        simp only [names_passed, root_listings, hop, List.flatten_cons, List.nil_append]
        exact h3
      · simpa only [names_passed] using h4
    | ok r =>
      obtain ⟨dp, os1⟩ := r
      obtain ⟨buf1, p1, calls, h1, h2, h3, h4⟩ :=
        ih (iter + 1) (dp.entries.foldl (fun b name => (filler b name).2) buf)
          { os := os1, errno := p.errno,
            trace := (p.trace ++ [Call.opendir (D.rootdir[iter] ++ P)])
              ++ dp.entries.map Call.filler } (by omega)
      refine ⟨buf1, p1,
        Call.opendir (D.rootdir[iter] ++ P) :: (dp.entries.map Call.filler ++ calls),
        ?_, ?_, ?_, ?_⟩
      · simp only [my_readdir_loop, hgp, hop, readdir_while_accept filler hacc, Proc.done]
        exact h1
      · rw [h2]; simp
      · rw [hdrop]
        simp only [names_passed, names_passed_fillers, root_listings, hop, List.flatten_cons]
        rw [h3]
      · simp only [names_passed, names_passed_fillers, List.foldl_append]
        exact h4

/-- A name listed at most once per root is counted once for each root listing it. -/
theorem sum_count_eq_length_filter (name : Path) (L : List (List Path))
    (h : ∀ l ∈ L, l.count name ≤ 1) :
    (L.map (List.count name)).sum = (L.filter (fun l => decide (name ∈ l))).length := by
  induction L with
  | nil => rfl
  | cons l t ih =>
    have ht := ih (fun l1 hl1 => h l1 (List.mem_cons_of_mem _ hl1))
    have hl := h l (List.mem_cons_self _ _)
    by_cases hmem : name ∈ l
    · have hpos : 0 < l.count name := List.count_pos_iff.2 hmem
      have h1 : l.count name = 1 := by omega
      simp only [List.map_cons, List.sum_cons, List.filter_cons, hmem, decide_True, if_true,
        List.length_cons, h1, ht]
      omega
    · have h0 : l.count name = 0 := List.count_eq_zero.2 hmem
      simp only [List.map_cons, List.sum_cons, List.filter_cons, hmem, decide_False, h0, ht]
      simp

theorem my_mkdir_loop_eq_scan (PATH_MAX : Nat) (D : my_data) (K : Sys σ) (P : Path) (mode : Nat)
    (n iter : Nat) (p : Proc σ) :
    my_mkdir_loop PATH_MAX D K P mode n iter p
      = scan (get_path PATH_MAX D P) (fun f os => K.mkdir f mode os)
          (fun f => Call.mkdir f mode)
          (fun f os1 q => ((0 : Int), q.done (Call.mkdir f mode) os1))
          (fun q => (-q.errno, q)) n iter p := by
  induction n generalizing iter p with
  | zero => rfl
  | succ n ih =>
    simp only [my_mkdir_loop, scan]
    cases get_path PATH_MAX D P iter with
    | none => rfl
    | some f =>
      dsimp only
      cases K.mkdir f mode p.os with
      | ok st => rfl
      | error e => exact ih _ _

/-- When `creat` never returns descriptor 0, the loop of `my_create` is a scan. -/
theorem my_create_loop_eq_scan (PATH_MAX : Nat) (D : my_data) (K : Sys σ) (P : Path)
    (mode : Nat) (fi : fuse_file_info)
    (hpos : ∀ f os fd os1, K.creat f mode os = .ok (fd, os1) → 0 < fd)
    (n iter : Nat) (p : Proc σ) :
    my_create_loop PATH_MAX D K P mode n iter fi p
      = scan (get_path PATH_MAX D P) (fun f os => K.creat f mode os)
          (fun f => Call.creat f mode)
          (fun f r q => ((0 : Int), ({ flags := fi.flags, fh := r.1 } : fuse_file_info),
            q.done (Call.creat f mode) r.2))
          (fun q => (-q.errno, fi, q)) n iter p := by
  induction n generalizing iter p with
  | zero => rfl
  | succ n ih =>
    simp only [my_create_loop, scan]
    cases get_path PATH_MAX D P iter with
    | none => rfl
    | some f =>
      dsimp only
      cases hc : K.creat f mode p.os with
      | ok r =>
        obtain ⟨fd, os1⟩ := r
        have := hpos f p.os fd os1 hc
        simp only [gt_iff_lt, this, if_true]
      | error e => exact ih _ _

/-- A scan over the roots that succeeds first at root `i`. -/
theorem scan_roots_first {α β : Type} (PATH_MAX : Nat) (D : my_data) (P : Path)
    (prim : Path → σ → Except Int α) (call : Path → Call)
    (win : Path → α → Proc σ → β) (lose : Proc σ → β) (p : Proc σ) (i : Nat) (ri : Path) (a : α)
    (hi : D.rootdir[i]? = some ri)
    (hfit : ∀ j r, j ≤ i → D.rootdir[j]? = some r → r.length + P.length < PATH_MAX)
    (hok : prim (ri ++ P) p.os = .ok a)
    (hfail : ∀ j r, j < i → D.rootdir[j]? = some r → ∃ e, prim (r ++ P) p.os = .error e) :
    ∃ p1, scan (get_path PATH_MAX D P) prim call win lose D.dir_cnt 0 p
        = some (win (ri ++ P) a p1) ∧ p1.os = p.os ∧
      p1.trace = p.trace ++ (D.rootdir.take i).map (fun r => call (r ++ P)) := by
  have hilt : i < D.rootdir.length := lt_length_of_getElem? _ _ _ hi
  obtain ⟨p1, h1, h2, _, h4⟩ :=
    scan_first (get_path PATH_MAX D P) prim call win lose
      (D.rootdir.map (fun r => r ++ P)) p.os i (ri ++ P) a
      (fun j hj f hf => resolve_fit PATH_MAX D P j f (fun r hr => hfit j r hj hr) hf)
      (by rw [List.getElem?_map, hi]; rfl) hok
      (by
        intro f hf
        rw [← List.map_take, List.mem_map] at hf
        obtain ⟨r, hr, hrf⟩ := hf
        obtain ⟨j, hj, hjr⟩ := getElem?_of_mem_take _ _ _ hr
        rw [← hrf]
        exact hfail j r hj hjr)
      D.dir_cnt 0 p (by simpa [my_data.dir_cnt] using hilt) (Nat.zero_le _) rfl
  refine ⟨p1, h1, h2, ?_⟩
  rw [h4, List.drop_zero, ← List.map_take, List.map_map]
  rfl

/-- After a creation at `root[i] + P` that touched no other path, `my_getattr(P)`
resolves to root `i`, provided `P` was absent from every root and the creation
had been refused in every earlier root. -/
theorem getattr_after_creation {α : Type} (PATH_MAX : Nat) (D : my_data) (K : Sys σ) (P : Path)
    (os os1 : σ) (create : Path → σ → Except Int α) (i : Nat) (ri : Path) (a : α) (m : stat)
    (p1 : Proc σ) (hp1 : p1.os = os1)
    (hi : D.rootdir[i]? = some ri)
    (hfit : ∀ j r, j ≤ i → D.rootdir[j]? = some r → r.length + P.length < PATH_MAX)
    (habsent : ∀ r ∈ D.rootdir, ∃ e, K.lstat (r ++ P) os = .error e)
    (hok : create (ri ++ P) os = .ok a)
    (hfail : ∀ j r, j < i → D.rootdir[j]? = some r → ∃ e, create (r ++ P) os = .error e)
    (hnew : K.lstat (ri ++ P) os1 = .ok m)
    (hframe : ∀ q, q ≠ ri ++ P → K.lstat q os1 = K.lstat q os) :
    (∀ r ∈ D.rootdir, r ≠ ri → ∃ e, K.lstat (r ++ P) os1 = .error e) ∧
    ∃ p2, my_getattr PATH_MAX D K P p1 = some (0, some m, p2) := by
  have hother : ∀ r ∈ D.rootdir, r ≠ ri → ∃ e, K.lstat (r ++ P) os1 = .error e := by
    intro r hr hne
    rw [hframe _ (fun h => hne (List.append_cancel_right h))]
    exact habsent r hr
  refine ⟨hother, ?_⟩
  obtain ⟨p2, h2, _⟩ := getattr_first PATH_MAX D K P p1 i ri m hi hfit (by rw [hp1]; exact hnew)
    (by
      intro j r hj hr
      rw [hp1]
      apply hother r (List.mem_iff_getElem?.2 ⟨j, hr⟩)
      intro heq
      obtain ⟨e, he⟩ := hfail j r hj hr
      rw [heq, hok] at he
      cases he)
  exact ⟨p2, h2⟩

/-- No cross-root drift for `my_mkdir`: the claim C4 restricted to `my_mkdir`. -/
theorem mkdir_no_drift (PATH_MAX : Nat) (D : my_data) (K : Sys σ) (P : Path) (mode : Nat)
    (p : Proc σ) (i : Nat) (ri : Path) (os1 : σ) (m : stat)
    (hi : D.rootdir[i]? = some ri)
    (hfit : ∀ j r, j ≤ i → D.rootdir[j]? = some r → r.length + P.length < PATH_MAX)
    (habsent : ∀ r ∈ D.rootdir, ∃ e, K.lstat (r ++ P) p.os = .error e)
    (hok : K.mkdir (ri ++ P) mode p.os = .ok os1)
    (hfail : ∀ j r, j < i → D.rootdir[j]? = some r → ∃ e, K.mkdir (r ++ P) mode p.os = .error e)
    (hnew : K.lstat (ri ++ P) os1 = .ok m)
    (hframe : ∀ q, q ≠ ri ++ P → K.lstat q os1 = K.lstat q p.os) :
    ∃ p1, my_mkdir PATH_MAX D K P mode p = some (0, p1) ∧ p1.os = os1 ∧
      p1.trace = p.trace ++ (D.rootdir.take (i + 1)).map (fun r => Call.mkdir (r ++ P) mode) ∧
      (∀ r ∈ D.rootdir, r ≠ ri → ∃ e, K.lstat (r ++ P) p1.os = .error e) ∧
      ∃ p2, my_getattr PATH_MAX D K P p1 = some (0, some m, p2) := by
  obtain ⟨q, h1, h2, h3⟩ := scan_roots_first PATH_MAX D P (fun f os => K.mkdir f mode os)
    (fun f => Call.mkdir f mode) (fun f os1 q => ((0 : Int), q.done (Call.mkdir f mode) os1))
    (fun q => (-q.errno, q)) p i ri os1 hi hfit hok hfail
  have htake : D.rootdir.take (i + 1) = D.rootdir.take i ++ [ri] := by
    rw [List.take_succ, hi]; rfl
  obtain ⟨h4, h5⟩ := getattr_after_creation PATH_MAX D K P p.os os1
    (fun f os => K.mkdir f mode os) i ri os1 m (q.done (Call.mkdir (ri ++ P) mode) os1) rfl
    hi hfit habsent hok hfail hnew hframe
  refine ⟨q.done (Call.mkdir (ri ++ P) mode) os1, ?_, rfl, ?_, h4, h5⟩
  · rw [my_mkdir, my_mkdir_loop_eq_scan]; exact h1
  · simp only [Proc.done, h3, htake, List.map_append, List.map_cons, List.map_nil,
      List.append_assoc]

/-- No cross-root drift for `my_create` when `creat` never returns descriptor 0:
the claim C4 restricted to `my_create` away from that case. -/
theorem create_no_drift (PATH_MAX : Nat) (D : my_data) (K : Sys σ) (P : Path) (mode : Nat)
    (fi : fuse_file_info) (p : Proc σ) (i : Nat) (ri : Path) (fd : Nat) (os1 : σ) (m : stat)
    (hpos : ∀ f os fd os1, K.creat f mode os = .ok (fd, os1) → 0 < fd)
    (hi : D.rootdir[i]? = some ri)
    (hfit : ∀ j r, j ≤ i → D.rootdir[j]? = some r → r.length + P.length < PATH_MAX)
    (habsent : ∀ r ∈ D.rootdir, ∃ e, K.lstat (r ++ P) p.os = .error e)
    (hok : K.creat (ri ++ P) mode p.os = .ok (fd, os1))
    (hfail : ∀ j r, j < i → D.rootdir[j]? = some r → ∃ e, K.creat (r ++ P) mode p.os = .error e)
    (hnew : K.lstat (ri ++ P) os1 = .ok m)
    (hframe : ∀ q, q ≠ ri ++ P → K.lstat q os1 = K.lstat q p.os) :
    ∃ p1, my_create PATH_MAX D K P mode fi p = some (0, ⟨fi.flags, fd⟩, p1) ∧ p1.os = os1 ∧
      p1.trace = p.trace ++ (D.rootdir.take (i + 1)).map (fun r => Call.creat (r ++ P) mode) ∧
      (∀ r ∈ D.rootdir, r ≠ ri → ∃ e, K.lstat (r ++ P) p1.os = .error e) ∧
      ∃ p2, my_getattr PATH_MAX D K P p1 = some (0, some m, p2) := by
  obtain ⟨q, h1, h2, h3⟩ := scan_roots_first PATH_MAX D P (fun f os => K.creat f mode os)
    (fun f => Call.creat f mode)
    (fun f r q => ((0 : Int), ({ flags := fi.flags, fh := r.1 } : fuse_file_info),
      q.done (Call.creat f mode) r.2))
    (fun q => (-q.errno, fi, q)) p i ri (fd, os1) hi hfit hok hfail
  have htake : D.rootdir.take (i + 1) = D.rootdir.take i ++ [ri] := by
    rw [List.take_succ, hi]; rfl
  obtain ⟨h4, h5⟩ := getattr_after_creation PATH_MAX D K P p.os os1
    (fun f os => K.creat f mode os) i ri (fd, os1) m (q.done (Call.creat (ri ++ P) mode) os1) rfl
    hi hfit habsent hok hfail hnew hframe
  refine ⟨q.done (Call.creat (ri ++ P) mode) os1, ?_, rfl, ?_, h4, h5⟩
  · rw [my_create, my_create_loop_eq_scan PATH_MAX D K P mode fi hpos]; exact h1
  · simp only [Proc.done, h3, htake, List.map_append, List.map_cons, List.map_nil,
      List.append_assoc]

/-- A scan preceded by one more candidate is a scan over the longer list. -/
theorem scan_shift {φ α β : Type} (c0 : φ) (resolve : Nat → Option φ)
    (prim : φ → σ → Except Int α) (call : φ → Call) (win : φ → α → Proc σ → β)
    (lose : Proc σ → β) (n iter : Nat) (p : Proc σ) :
    scan (fun j => if j = 0 then some c0 else resolve (j - 1)) prim call win lose n (iter + 1) p
      = scan resolve prim call win lose n iter p := by
  induction n generalizing iter p with
  | zero => rfl
  | succ n ih =>
    simp only [scan, Nat.add_one_ne_zero, if_false, Nat.add_sub_cancel]
    cases resolve iter with
    | none => rfl
    | some f =>
      dsimp only
      cases prim f p.os with
      | ok a => rfl
      | error e => exact ih _ _

theorem my_opendir_loop_eq_scan (PATH_MAX : Nat) (D : my_data) (K : Sys σ) (P : Path)
    (fi : fuse_file_info) (n iter : Nat) (p : Proc σ) :
    my_opendir_loop PATH_MAX D K P n iter fi p
      = scan (get_path PATH_MAX D P) K.opendir Call.opendir
          (fun f r q => ((0 : Int), ({ flags := fi.flags, fh := r.1.addr } : fuse_file_info),
            q.done (Call.opendir f) r.2))
          (fun q => (-q.errno, fi, q)) n iter p := by
  induction n generalizing iter p with
  | zero => rfl
  | succ n ih =>
    simp only [my_opendir_loop, scan]
    cases get_path PATH_MAX D P iter with
    | none => rfl
    | some f =>
      dsimp only
      cases K.opendir f p.os with
      | ok r => rfl
      | error e => exact ih _ _

/-- `my_opendir` is one scan over `P` as given followed by `root[k] + P`. -/
theorem my_opendir_eq_scan (PATH_MAX : Nat) (D : my_data) (K : Sys σ) (P : Path)
    (fi : fuse_file_info) (p : Proc σ) :
    my_opendir PATH_MAX D K P fi p
      = scan (fun j => if j = 0 then some P else get_path PATH_MAX D P (j - 1))
          K.opendir Call.opendir
          (fun f r q => ((0 : Int), ({ flags := fi.flags, fh := r.1.addr } : fuse_file_info),
            q.done (Call.opendir f) r.2))
          (fun q => (-q.errno, fi, q)) (D.dir_cnt + 1) 0 p := by
  simp only [my_opendir, scan, if_true]
  cases K.opendir P p.os with
  | ok r => rfl
  | error e =>
    dsimp only
    rw [my_opendir_loop_eq_scan, scan_shift]

/-- When `open` never returns descriptor 0, the loop of `my_open` is a scan. -/
theorem my_open_loop_eq_scan (PATH_MAX : Nat) (D : my_data) (K : Sys σ) (P : Path)
    (fi : fuse_file_info)
    (hpos : ∀ f os fd os1, K.open_ f fi.flags os = .ok (fd, os1) → 0 < fd)
    (n iter : Nat) (p : Proc σ) :
    my_open_loop PATH_MAX D K P n iter fi p
      = scan (get_path PATH_MAX D P) (fun f os => K.open_ f fi.flags os)
          (fun f => Call.open_ f fi.flags)
          (fun f r q => ((0 : Int), ({ flags := fi.flags, fh := r.1 } : fuse_file_info),
            q.done (Call.open_ f fi.flags) r.2))
          (fun q => (-q.errno, fi, q)) n iter p := by
  induction n generalizing iter p with
  | zero => rfl
  | succ n ih =>
    simp only [my_open_loop, scan]
    cases get_path PATH_MAX D P iter with
    | none => rfl
    | some f =>
      dsimp only
      cases hc : K.open_ f fi.flags p.os with
      | ok r =>
        obtain ⟨fd, os1⟩ := r
        have := hpos f p.os fd os1 hc
        simp only [gt_iff_lt, this, if_true]
      | error e => exact ih _ _

/-- When `open` never returns descriptor 0, `my_open` is one scan over `P` as
given followed by `root[k] + P`. -/
theorem my_open_eq_scan (PATH_MAX : Nat) (D : my_data) (K : Sys σ) (P : Path)
    (fi : fuse_file_info)
    (hpos : ∀ f os fd os1, K.open_ f fi.flags os = .ok (fd, os1) → 0 < fd) (p : Proc σ) :
    my_open PATH_MAX D K P fi p
      = scan (fun j => if j = 0 then some P else get_path PATH_MAX D P (j - 1))
          (fun f os => K.open_ f fi.flags os) (fun f => Call.open_ f fi.flags)
          (fun f r q => ((0 : Int), ({ flags := fi.flags, fh := r.1 } : fuse_file_info),
            q.done (Call.open_ f fi.flags) r.2))
          (fun q => (-q.errno, fi, q)) (D.dir_cnt + 1) 0 p := by
  simp only [my_open, scan, if_true]
  cases hc : K.open_ P fi.flags p.os with
  | ok r =>
    obtain ⟨fd, os1⟩ := r
    have := hpos P p.os fd os1 hc
    simp only [gt_iff_lt, this, if_true]
  | error e =>
    dsimp only
    rw [my_open_loop_eq_scan PATH_MAX D K P fi hpos, scan_shift]

/-- The candidates of `my_open` and `my_opendir` resolve, within the bound. -/
theorem resolve_candidates (PATH_MAX : Nat) (D : my_data) (P : Path)
    (hfit : ∀ r ∈ D.rootdir, r.length + P.length < PATH_MAX) (j : Nat) (f : Path)
    (hf : (P :: D.rootdir.map (fun r => r ++ P))[j]? = some f) :
    (if j = 0 then some P else get_path PATH_MAX D P (j - 1)) = some f := by
  cases j with
  | zero => simpa using hf
  | succ k =>
    simp only [Nat.add_one_ne_zero, if_false, Nat.add_sub_cancel]
    rw [List.getElem?_cons_succ] at hf
    exact resolve_fit PATH_MAX D P k f
      (fun r hr => hfit r (List.mem_iff_getElem?.2 ⟨k, hr⟩)) hf

/-- Attempt order and outcome of `my_opendir`: the candidates are `P` as given,
then `root[0] + P`, ..., in order; the first success returns 0 with the stream in
`fi->fh` and ends the scan; if all fail the result is `-errno` of the last attempt. -/
theorem opendir_attempts (PATH_MAX : Nat) (D : my_data) (K : Sys σ) (P : Path)
    (fi : fuse_file_info) (p : Proc σ)
    (hfit : ∀ r ∈ D.rootdir, r.length + P.length < PATH_MAX) :
    (∃ k c dp os1, (P :: D.rootdir.map (fun r => r ++ P))[k]? = some c ∧
        (∀ c1 ∈ (P :: D.rootdir.map (fun r => r ++ P)).take k,
          ∃ e, K.opendir c1 p.os = .error e) ∧
        K.opendir c p.os = .ok (dp, os1) ∧
        ∃ p1, my_opendir PATH_MAX D K P fi p = some (0, ⟨fi.flags, dp.addr⟩, p1) ∧
          p1.os = os1 ∧
          p1.trace = p.trace
            ++ ((P :: D.rootdir.map (fun r => r ++ P)).take (k + 1)).map Call.opendir) ∨
    ((∀ c ∈ P :: D.rootdir.map (fun r => r ++ P), ∃ e, K.opendir c p.os = .error e) ∧
      ∃ p1, my_opendir PATH_MAX D K P fi p = some (-p1.errno, fi, p1) ∧ p1.os = p.os ∧
        (∀ c e, (P :: D.rootdir.map (fun r => r ++ P)).getLast? = some c →
          K.opendir c p.os = .error e → p1.errno = e) ∧
        p1.trace = p.trace ++ (P :: D.rootdir.map (fun r => r ++ P)).map Call.opendir) := by
  have hlen : (P :: D.rootdir.map (fun r => r ++ P)).length = D.dir_cnt + 1 := by
    simp [my_data.dir_cnt]
  rcases scan_outcome (fun j => if j = 0 then some P else get_path PATH_MAX D P (j - 1))
      K.opendir Call.opendir
      (fun f r q => ((0 : Int), ({ flags := fi.flags, fh := r.1.addr } : fuse_file_info),
        q.done (Call.opendir f) r.2))
      (fun q => (-q.errno, fi, q)) (P :: D.rootdir.map (fun r => r ++ P)) p
      (resolve_candidates PATH_MAX D P hfit) with h | h
  · obtain ⟨k, c, r, p1, hk, hfail, hok, hscan, hos, _, htr⟩ := h
    obtain ⟨dp, os1⟩ := r
    rw [hlen, ← my_opendir_eq_scan] at hscan
    refine Or.inl ⟨k, c, dp, os1, hk, hfail, hok, _, hscan, rfl, ?_⟩
    have htake : (P :: D.rootdir.map (fun r => r ++ P)).take (k + 1)
        = (P :: D.rootdir.map (fun r => r ++ P)).take k ++ [c] := by
      rw [List.take_succ, hk]; rfl
    simp only [Proc.done, htr, htake, List.map_append, List.map_cons, List.map_nil,
      List.append_assoc]
  · obtain ⟨hall, p1, hscan, hos, _, herr, htr⟩ := h
    rw [hlen, ← my_opendir_eq_scan] at hscan
    exact Or.inr ⟨hall, p1, hscan, hos, herr, htr⟩

/-- Attempt order and outcome of `my_open` when `open` never returns
descriptor 0: as for `my_opendir`, with the descriptor stored in `fi->fh`. -/
theorem open_attempts (PATH_MAX : Nat) (D : my_data) (K : Sys σ) (P : Path)
    (fi : fuse_file_info) (p : Proc σ)
    (hpos : ∀ f os fd os1, K.open_ f fi.flags os = .ok (fd, os1) → 0 < fd)
    (hfit : ∀ r ∈ D.rootdir, r.length + P.length < PATH_MAX) :
    (∃ k c fd os1, (P :: D.rootdir.map (fun r => r ++ P))[k]? = some c ∧
        (∀ c1 ∈ (P :: D.rootdir.map (fun r => r ++ P)).take k,
          ∃ e, K.open_ c1 fi.flags p.os = .error e) ∧
        K.open_ c fi.flags p.os = .ok (fd, os1) ∧
        ∃ p1, my_open PATH_MAX D K P fi p = some (0, ⟨fi.flags, fd⟩, p1) ∧
          p1.os = os1 ∧
          p1.trace = p.trace
            ++ ((P :: D.rootdir.map (fun r => r ++ P)).take (k + 1)).map
                (fun c1 => Call.open_ c1 fi.flags)) ∨
    ((∀ c ∈ P :: D.rootdir.map (fun r => r ++ P), ∃ e, K.open_ c fi.flags p.os = .error e) ∧
      ∃ p1, my_open PATH_MAX D K P fi p = some (-p1.errno, fi, p1) ∧ p1.os = p.os ∧
        (∀ c e, (P :: D.rootdir.map (fun r => r ++ P)).getLast? = some c →
          K.open_ c fi.flags p.os = .error e → p1.errno = e) ∧
        p1.trace = p.trace
          ++ (P :: D.rootdir.map (fun r => r ++ P)).map (fun c1 => Call.open_ c1 fi.flags)) := by
  have hlen : (P :: D.rootdir.map (fun r => r ++ P)).length = D.dir_cnt + 1 := by
    simp [my_data.dir_cnt]
  rcases scan_outcome (fun j => if j = 0 then some P else get_path PATH_MAX D P (j - 1))
      (fun f os => K.open_ f fi.flags os) (fun f => Call.open_ f fi.flags)
      (fun f r q => ((0 : Int), ({ flags := fi.flags, fh := r.1 } : fuse_file_info),
        q.done (Call.open_ f fi.flags) r.2))
      (fun q => (-q.errno, fi, q)) (P :: D.rootdir.map (fun r => r ++ P)) p
      (resolve_candidates PATH_MAX D P hfit) with h | h
  · obtain ⟨k, c, r, p1, hk, hfail, hok, hscan, hos, _, htr⟩ := h
    obtain ⟨fd, os1⟩ := r
    rw [hlen, ← my_open_eq_scan PATH_MAX D K P fi hpos] at hscan
    refine Or.inl ⟨k, c, fd, os1, hk, hfail, hok, _, hscan, rfl, ?_⟩
    have htake : (P :: D.rootdir.map (fun r => r ++ P)).take (k + 1)
        = (P :: D.rootdir.map (fun r => r ++ P)).take k ++ [c] := by
      rw [List.take_succ, hk]; rfl
    simp only [Proc.done, htr, htake, List.map_append, List.map_cons, List.map_nil,
      List.append_assoc]
  · obtain ⟨hall, p1, hscan, hos, _, herr, htr⟩ := h
    rw [hlen, ← my_open_eq_scan PATH_MAX D K P fi hpos] at hscan
    exact Or.inr ⟨hall, p1, hscan, hos, herr, htr⟩

/-- For a FIFO mode the loop of `my_mknod` is a scan with `mkfifo`. -/
theorem my_mknod_loop_fifo_eq_scan (PATH_MAX : Nat) (D : my_data) (K : Sys σ) (P : Path)
    (mode dev : Nat) (hreg : S_ISREG mode = false) (hfifo : S_ISFIFO mode = true)
    (n iter : Nat) (p : Proc σ) :
    my_mknod_loop PATH_MAX D K P mode dev n iter p
      = scan (get_path PATH_MAX D P) (fun f os => K.mkfifo f mode os)
          (fun f => Call.mkfifo f mode)
          (fun f os1 q => ((0 : Int), q.done (Call.mkfifo f mode) os1))
          (fun q => (-q.errno, q)) n iter p := by
  induction n generalizing iter p with
  | zero => rfl
  | succ n ih =>
    simp only [my_mknod_loop, scan, hreg, hfifo, if_true, Bool.false_eq_true, if_false]
    cases get_path PATH_MAX D P iter with
    | none => rfl
    | some f =>
      dsimp only
      cases K.mkfifo f mode p.os with
      | ok os1 => rfl
      | error e => exact ih _ _

/-- For a mode that is neither regular nor FIFO the loop of `my_mknod` is a scan
with `mknod`. -/
theorem my_mknod_loop_dev_eq_scan (PATH_MAX : Nat) (D : my_data) (K : Sys σ) (P : Path)
    (mode dev : Nat) (hreg : S_ISREG mode = false) (hfifo : S_ISFIFO mode = false)
    (n iter : Nat) (p : Proc σ) :
    my_mknod_loop PATH_MAX D K P mode dev n iter p
      = scan (get_path PATH_MAX D P) (fun f os => K.mknod f mode dev os)
          (fun f => Call.mknod f mode dev)
          (fun f os1 q => ((0 : Int), q.done (Call.mknod f mode dev) os1))
          (fun q => (-q.errno, q)) n iter p := by
  induction n generalizing iter p with
  | zero => rfl
  | succ n ih =>
    simp only [my_mknod_loop, scan, hreg, hfifo, Bool.false_eq_true, if_false]
    cases get_path PATH_MAX D P iter with
    | none => rfl
    | some f =>
      dsimp only
      cases K.mknod f mode dev p.os with
      | ok os1 => rfl
      | error e => exact ih _ _

/-- The part of C11 that holds: for a FIFO or another non-regular node, when the
creation primitive fails in every root, `my_mknod` returns the negated `errno`
of the attempt on the last root. -/
theorem mknod_special_last_root_error (PATH_MAX : Nat) (D : my_data) (K : Sys σ) (P : Path)
    (mode dev : Nat) (p : Proc σ) (rl : Path)
    (hreg : S_ISREG mode = false)
    (hlast : D.rootdir.getLast? = some rl)
    (hfit : ∀ r ∈ D.rootdir, r.length + P.length < PATH_MAX) :
    (S_ISFIFO mode = true → ∀ e,
        (∀ r ∈ D.rootdir, ∃ e1, K.mkfifo (r ++ P) mode p.os = .error e1) →
        K.mkfifo (rl ++ P) mode p.os = .error e →
        ∃ p1, my_mknod PATH_MAX D K P mode dev p = some (-e, p1) ∧ p1.os = p.os ∧
          p1.trace = p.trace ++ D.rootdir.map (fun r => Call.mkfifo (r ++ P) mode)) ∧
    (S_ISFIFO mode = false → ∀ e,
        (∀ r ∈ D.rootdir, ∃ e1, K.mknod (r ++ P) mode dev p.os = .error e1) →
        K.mknod (rl ++ P) mode dev p.os = .error e →
        ∃ p1, my_mknod PATH_MAX D K P mode dev p = some (-e, p1) ∧ p1.os = p.os ∧
          p1.trace = p.trace ++ D.rootdir.map (fun r => Call.mknod (r ++ P) mode dev)) := by
  constructor
  · intro hfifo e hall he
    obtain ⟨p1, h1, h2, h3, h4⟩ := scan_roots_all_fail PATH_MAX D P
      (fun f os => K.mkfifo f mode os) (fun f => Call.mkfifo f mode)
      (fun f os1 q => ((0 : Int), q.done (Call.mkfifo f mode) os1)) (fun q => (-q.errno, q))
      p rl e hlast hfit hall he
    exact ⟨p1, by rw [my_mknod, my_mknod_loop_fifo_eq_scan PATH_MAX D K P mode dev hreg hfifo,
      h1, h3], h2, h4⟩
  · intro hfifo e hall he
    obtain ⟨p1, h1, h2, h3, h4⟩ := scan_roots_all_fail PATH_MAX D P
      (fun f os => K.mknod f mode dev os) (fun f => Call.mknod f mode dev)
      (fun f os1 q => ((0 : Int), q.done (Call.mknod f mode dev) os1)) (fun q => (-q.errno, q))
      p rl e hlast hfit hall he
    exact ⟨p1, by rw [my_mknod, my_mknod_loop_dev_eq_scan PATH_MAX D K P mode dev hreg hfifo,
      h1, h3], h2, h4⟩

/-- The loop of `my_mknod` for a regular file when `open` fails in every
remaining root and `close(-1)` fails with `eb`: after at least one iteration
`errno` is `eb`, whatever `open` reported. -/
theorem my_mknod_loop_regular_all_fail (PATH_MAX : Nat) (D : my_data) (K : Sys σ) (P : Path)
    (mode dev : Nat) (os : σ) (eb : Int) (hreg : S_ISREG mode = true)
    (hfit : ∀ r ∈ D.rootdir, r.length + P.length < PATH_MAX)
    (hall : ∀ r ∈ D.rootdir, ∃ e, K.open_mode (r ++ P) O_CREAT_EXCL_WRONLY mode os = .error e)
    (hclose : K.close (-1) os = .error eb) :
    ∀ (n iter : Nat) (p : Proc σ), iter + n = D.rootdir.length → p.os = os →
      ∃ p1, my_mknod_loop PATH_MAX D K P mode dev n iter p = some (-p1.errno, p1) ∧
        p1.os = os ∧ (0 < n → p1.errno = eb) := by
  intro n
  induction n with
  | zero =>
    intro iter p _ hos
    exact ⟨p, rfl, hos, fun h => absurd h (Nat.lt_irrefl 0)⟩
  | succ n ih =>
    intro iter p h hos
    have hlt : iter < D.rootdir.length := by omega
    have hr : D.rootdir[iter]? = some D.rootdir[iter] := List.getElem?_eq_getElem hlt
    have hmem : D.rootdir[iter] ∈ D.rootdir := List.getElem_mem hlt
    have hgp := get_path_fit PATH_MAX D P iter _ hr (hfit _ hmem)
    obtain ⟨e, he⟩ := hall _ hmem
    obtain ⟨p1, h1, h2, h3⟩ := ih (iter + 1)
      ((p.failed (Call.open_mode (D.rootdir[iter] ++ P) O_CREAT_EXCL_WRONLY mode) e).failed
        (Call.close (-1)) eb) (by omega) hos
    refine ⟨p1, ?_, h2, ?_⟩
    · simp only [my_mknod_loop, hgp, hreg, if_true, hos, he, Proc.failed, hclose]
      simpa only [Proc.failed, hos] using h1
    · intro _
      rcases Nat.eq_zero_or_pos n with hn | hn
      · subst hn
        simp only [my_mknod_loop, Option.some.injEq, Prod.mk.injEq] at h1
        rw [← h1.2]; rfl
      · exact h3 hn

/-- The defect behind C11 in general: for a regular file, with at least one
root, when `open` fails in every root and `close(-1)` fails with `eb`,
`my_mknod` returns `-eb`, whatever codes `open` reported. -/
theorem mknod_regular_returns_close_error (PATH_MAX : Nat) (D : my_data) (K : Sys σ) (P : Path)
    (mode dev : Nat) (p : Proc σ) (eb : Int) (hreg : S_ISREG mode = true)
    (hne : D.rootdir ≠ [])
    (hfit : ∀ r ∈ D.rootdir, r.length + P.length < PATH_MAX)
    (hall : ∀ r ∈ D.rootdir, ∃ e, K.open_mode (r ++ P) O_CREAT_EXCL_WRONLY mode p.os = .error e)
    (hclose : K.close (-1) p.os = .error eb) :
    ∃ p1, my_mknod PATH_MAX D K P mode dev p = some (-eb, p1) ∧ p1.os = p.os := by
  obtain ⟨p1, h1, h2, h3⟩ := my_mknod_loop_regular_all_fail PATH_MAX D K P mode dev p.os eb
    hreg hfit hall hclose D.dir_cnt 0 p (by simp [my_data.dir_cnt]) rfl
  have hpos : 0 < D.dir_cnt := by
    simp only [my_data.dir_cnt]
    exact List.length_pos.2 hne
  rw [h3 hpos] at h1
  exact ⟨p1, h1, h2⟩

/-- The part of C12 that holds for `my_getxattr`: when `lgetxattr` fails on the
roots before `i` and succeeds on `root[i] + P` with size 0, the loop returns 0
at root `i`. -/
theorem my_getxattr_loop_first_zero (PATH_MAX : Nat) (D : my_data) (K : Sys σ) (P name : Path)
    (size : Nat) (os : σ) (i : Nat) (ri : Path) (len : Nat) (bytes : List Nat)
    (hi : D.rootdir[i]? = some ri)
    (hfit : ∀ j r, j ≤ i → D.rootdir[j]? = some r → r.length + P.length < PATH_MAX)
    (hok : K.lgetxattr (ri ++ P) name size os = .ok (len, bytes)) (hzero : to_int len = 0)
    (hfail : ∀ j r, j < i → D.rootdir[j]? = some r →
      ∃ e, K.lgetxattr (r ++ P) name size os = .error e) :
    ∀ (n iter : Nat) (value : Option (List Nat)) (p : Proc σ), i < iter + n → iter ≤ i →
      p.os = os →
      ∃ p1, my_getxattr_loop PATH_MAX D K P name size n iter value p = some (0, some bytes, p1) ∧
        p1.os = os ∧
        p1.trace = p.trace
          ++ ((D.rootdir.take (i + 1)).drop iter).map (fun r => Call.lgetxattr (r ++ P) name size) := by
  have hilt : i < D.rootdir.length := lt_length_of_getElem? _ _ _ hi
  intro n
  induction n with
  | zero => intro iter value p h1 h2 _; omega
  | succ n ih =>
    intro iter value p h1 h2 hos
    have hlt : iter < D.rootdir.length := by omega
    have hr : D.rootdir[iter]? = some D.rootdir[iter] := List.getElem?_eq_getElem hlt
    have hgp := get_path_fit PATH_MAX D P iter _ hr (hfit iter _ h2 hr)
    have hdrop := drop_take_succ D.rootdir (i + 1) iter hlt (by omega)
    rcases Nat.lt_or_ge iter i with hlt2 | hge
    · obtain ⟨e, he⟩ := hfail iter _ hlt2 hr
      obtain ⟨p1, hp1, hos1, htr⟩ := ih (iter + 1) value
        (p.failed (Call.lgetxattr (D.rootdir[iter] ++ P) name size) e) (by omega) (by omega) hos
      refine ⟨p1, ?_, hos1, ?_⟩
      · simp only [my_getxattr_loop, hgp, hos, he]; exact hp1
      · rw [htr, hdrop]; simp [Proc.failed]
    · have heq : iter = i := by omega
      subst heq
      rw [hr] at hi
      have hri : D.rootdir[iter] = ri := by injection hi
      refine ⟨p.done (Call.lgetxattr (ri ++ P) name size) p.os, ?_, hos, ?_⟩
      · simp only [my_getxattr_loop, hgp, hos, hri, hok, hzero, if_true]
      · rw [hdrop]
        have : (D.rootdir.take (iter + 1)).drop (iter + 1) = [] := by
          apply List.drop_eq_nil_of_le; rw [List.length_take]; omega
        simp [Proc.done, this, hri]

/-- The part of C12 that holds for `my_listxattr`: when `llistxattr` fails on
the roots before `i` and succeeds on `root[i] + P` with size 0, the loop returns
0 at root `i`. -/
theorem my_listxattr_loop_first_zero (PATH_MAX : Nat) (D : my_data) (K : Sys σ) (P : Path)
    (size : Nat) (os : σ) (i : Nat) (ri : Path) (len : Nat) (bytes : List Nat)
    (hi : D.rootdir[i]? = some ri)
    (hfit : ∀ j r, j ≤ i → D.rootdir[j]? = some r → r.length + P.length < PATH_MAX)
    (hok : K.llistxattr (ri ++ P) size os = .ok (len, bytes)) (hzero : to_int len = 0)
    (hfail : ∀ j r, j < i → D.rootdir[j]? = some r →
      ∃ e, K.llistxattr (r ++ P) size os = .error e) :
    ∀ (n iter : Nat) (list : Option (List Nat)) (p : Proc σ), i < iter + n → iter ≤ i →
      p.os = os →
      ∃ p1, my_listxattr_loop PATH_MAX D K P size n iter list p = some (0, some bytes, p1) ∧
        p1.os = os ∧
        p1.trace = p.trace
          ++ ((D.rootdir.take (i + 1)).drop iter).map (fun r => Call.llistxattr (r ++ P) size) := by
  have hilt : i < D.rootdir.length := lt_length_of_getElem? _ _ _ hi
  intro n
  induction n with
  | zero => intro iter list p h1 h2 _; omega
  | succ n ih =>
    intro iter list p h1 h2 hos
    have hlt : iter < D.rootdir.length := by omega
    have hr : D.rootdir[iter]? = some D.rootdir[iter] := List.getElem?_eq_getElem hlt
    have hgp := get_path_fit PATH_MAX D P iter _ hr (hfit iter _ h2 hr)
    have hdrop := drop_take_succ D.rootdir (i + 1) iter hlt (by omega)
    rcases Nat.lt_or_ge iter i with hlt2 | hge
    · obtain ⟨e, he⟩ := hfail iter _ hlt2 hr
      obtain ⟨p1, hp1, hos1, htr⟩ := ih (iter + 1) list
        (p.failed (Call.llistxattr (D.rootdir[iter] ++ P) size) e) (by omega) (by omega) hos
      refine ⟨p1, ?_, hos1, ?_⟩
      · simp only [my_listxattr_loop, hgp, hos, he]; exact hp1
      · rw [htr, hdrop]; simp [Proc.failed]
    · have heq : iter = i := by omega
      subst heq
      rw [hr] at hi
      have hri : D.rootdir[iter] = ri := by injection hi
      refine ⟨p.done (Call.llistxattr (ri ++ P) size) p.os, ?_, hos, ?_⟩
      · simp only [my_listxattr_loop, hgp, hos, hri, hok, hzero, if_true]
      · rw [hdrop]
        have : (D.rootdir.take (iter + 1)).drop (iter + 1) = [] := by
          apply List.drop_eq_nil_of_le; rw [List.length_take]; omega
        simp [Proc.done, this, hri]

/-- The defect behind C12 in general: a successful `lgetxattr` on the last
root with a positive size is not returned; `my_getxattr` leaves the loop and
returns `-errno`, `errno` being whatever an earlier call left. -/
theorem getxattr_positive_size_last_root (PATH_MAX : Nat) (D : my_data) (K : Sys σ)
    (P name : Path) (size : Nat) (p : Proc σ) (r : Path) (len : Nat) (bytes : List Nat)
    (hD : D.rootdir = [r]) (hfit : r.length + P.length < PATH_MAX)
    (hok : K.lgetxattr (r ++ P) name size p.os = .ok (len, bytes)) (hpos : to_int len ≠ 0) :
    my_getxattr PATH_MAX D K P name size p
      = some (-p.errno, some bytes, p.done (Call.lgetxattr (r ++ P) name size) p.os) := by
  have hgp := get_path_fit PATH_MAX D P 0 r (by rw [hD]; simp) hfit
  simp only [my_getxattr, my_data.dir_cnt, hD, List.length_cons, List.length_nil,
    my_getxattr_loop, hgp, hok, hpos, if_false, Proc.done]

/-- Within the bound the string written by `get_path` is the root followed by
the whole path, and the two readings of `get_path` agree. -/
theorem get_path_flat_fit (PATH_MAX : Nat) (D : my_data) (P : Path) (j : Nat) (r : Path)
    (hr : D.rootdir[j]? = some r) (hfit : r.length + P.length < PATH_MAX) :
    get_path_flat PATH_MAX D P j = some (r ++ P) := by
  have hj : j < D.rootdir.length := lt_length_of_getElem? _ _ _ hr
  have h1 : ¬ (j ≥ D.dir_cnt) := by simpa [my_data.dir_cnt] using hj
  have h3 : List.take PATH_MAX P = P := by
    apply List.take_of_length_le; omega
  have h4 : PATH_MAX ≤ PATH_MAX ∧ r.length < PATH_MAX := ⟨le_refl _, by omega⟩
  simp only [get_path_flat, h1, if_false, hr, strncpy, h3, h4, and_self, if_true]

/-- A string left by `get_path` inside the array is the string written. -/
theorem get_path_flat_of_get_path (PATH_MAX : Nat) (D : my_data) (P : Path) (idx : Nat)
    (f : Path) (h : get_path PATH_MAX D P idx = some f) :
    get_path_flat PATH_MAX D P idx = some f := by
  simp only [get_path] at h
  simp only [get_path_flat]
  cases hr : D.rootdir[if idx ≥ D.dir_cnt then 0 else idx]? with
  | none => rw [hr] at h; cases h
  | some r =>
    rw [hr] at h
    dsimp only at h ⊢
    cases hc : strncpy PATH_MAX r PATH_MAX with
    | none => rw [hc] at h; cases h
    | some fp =>
      rw [hc] at h
      dsimp only at h ⊢
      simp only [strncat] at h
      split at h
      · exact h
      · cases h

theorem long_path_length : long_path.length = 4097 := by
  simp only [long_path, List.length_cons, List.length_replicate]

theorem long_path_take : long_path.take 4096 = long_path_cut := by
  have h : long_path.take (4095 + 1) = long_path_cut := by
    simp only [long_path, long_path_cut, List.take_succ_cons, List.take_replicate]
    rfl
  exact h

theorem long_path_cut_length : long_path_cut.length = 4096 := by
  simp only [long_path_cut, List.length_cons, List.length_replicate]

/-- Whenever `my_getattr` has a result with every string inside the array, the
run that follows the characters written has the same result. -/
theorem my_getattr_flat_of_my_getattr (PATH_MAX : Nat) (D : my_data) (K : Sys σ) (P : Path)
    (p : Proc σ) (out : Int × Option stat × Proc σ)
    (h : my_getattr PATH_MAX D K P p = some out) :
    my_getattr_flat PATH_MAX D K P p = some out := by
  have hloop : ∀ (n iter : Nat) (q : Proc σ),
      my_getattr_loop PATH_MAX D K P n iter q = some out →
      my_getattr_flat_loop PATH_MAX D K P n iter q = some out := by
    intro n
    induction n with
    | zero => intro iter q hq; exact hq
    | succ n ih =>
      intro iter q hq
      simp only [my_getattr_loop] at hq
      simp only [my_getattr_flat_loop]
      cases hg : get_path PATH_MAX D P iter with
      | none => rw [hg] at hq; cases hq
      | some f =>
        rw [hg] at hq
        rw [get_path_flat_of_get_path PATH_MAX D P iter f hg]
        dsimp only at hq ⊢
        cases hl : K.lstat f q.os with
        | ok st => rw [hl] at hq; exact hq
        | error e => rw [hl] at hq; exact ih _ _ hq
  exact hloop D.dir_cnt 0 p h

end Lemmas

/-! ## The claims -/

section Claims
variable {σ : Type}

/-- C1. Priority precedence of `my_getattr`: when `lstat` succeeds on
`root[i] + P` and fails on `root[j] + P` for every `j < i` (all these paths
fitting in `PATH_MAX`), `my_getattr(P)` returns 0 with the metadata of
`root[i] + P` in the stat buffer, and the calls it issued are exactly `lstat` on
`root[0] + P`, ..., `root[i] + P`: no root after `i` is consulted. -/
theorem my_getattr_priority (PATH_MAX : Nat) (D : my_data) (K : Sys σ) (P : Path) (p : Proc σ)
    (i : Nat) (ri : Path) (st : stat)
    (hi : D.rootdir[i]? = some ri)
    (hfit : ∀ j r, j ≤ i → D.rootdir[j]? = some r → r.length + P.length < PATH_MAX)
    (hok : K.lstat (ri ++ P) p.os = .ok st)
    (hfail : ∀ j r, j < i → D.rootdir[j]? = some r → ∃ e, K.lstat (r ++ P) p.os = .error e) :
    ∃ p1, my_getattr PATH_MAX D K P p = some (0, some st, p1) ∧ p1.os = p.os ∧
      p1.trace = p.trace ++ (D.rootdir.take (i + 1)).map (fun r => Call.lstat (r ++ P)) := by
  have hilt : i < D.rootdir.length := lt_length_of_getElem? _ _ _ hi
  obtain ⟨p1, h1, h2, _, h4⟩ :=
    scan_first (get_path PATH_MAX D P) K.lstat Call.lstat
      (fun f st q => (0, some st, q.done (Call.lstat f) q.os)) (fun q => (-q.errno, none, q))
      (D.rootdir.map (fun r => r ++ P)) p.os i (ri ++ P) st
      (fun j hj f hf => resolve_fit PATH_MAX D P j f (fun r hr => hfit j r hj hr) hf)
      (by rw [List.getElem?_map, hi]; rfl) hok
      (by
        intro f hf
        rw [← List.map_take, List.mem_map] at hf
        obtain ⟨r, hr, hrf⟩ := hf
        obtain ⟨j, hj, hjr⟩ := getElem?_of_mem_take _ _ _ hr
        rw [← hrf]
        exact hfail j r hj hjr)
      D.dir_cnt 0 p (by simpa [my_data.dir_cnt] using hilt) (Nat.zero_le _) rfl
  refine ⟨p1.done (Call.lstat (ri ++ P)) p1.os, ?_, ?_, ?_⟩
  · rw [my_getattr, my_getattr_loop_eq_scan]; exact h1
  · simpa [Proc.done] using h2
  · have htake : D.rootdir.take (i + 1) = D.rootdir.take i ++ [ri] := by
      rw [List.take_succ, hi]; rfl
    simp only [Proc.done, h4, List.drop_zero, htake, List.map_append, List.map_take,
      List.map_map, List.map_cons, List.map_nil, List.append_assoc]
    rfl

/-- C1 at a concrete input: `/a` is absent from `/r1` and present in `/r2`. -/
theorem my_getattr_priority_witness :
    ∃ p1, my_getattr 4096 two_roots Toy.sys "/a".toList (start toy_second)
        = some (0, some ⟨22, 0o100644, 1⟩, p1) ∧ p1.os = toy_second ∧
      p1.trace = [] ++ (two_roots.rootdir.take (1 + 1)).map (fun r => Call.lstat (r ++ "/a".toList)) :=
  my_getattr_priority 4096 two_roots Toy.sys "/a".toList (start toy_second) 1 "/r2".toList
    ⟨22, 0o100644, 1⟩ rfl
    (by
      intro j r hj hr
      have : r ∈ two_roots.rootdir := List.mem_iff_getElem?.2 ⟨j, hr⟩
      simp [two_roots] at this
      rcases this with h | h <;> subst h <;> decide)
    rfl
    (by
      intro j r hj hr
      have hj0 : j = 0 := by omega
      subst hj0
      simp [two_roots] at hr
      subst hr
      exact ⟨ENOENT, rfl⟩)

/-- C2. Last-root error of the read-type callbacks: with `N ≥ 1` roots (the
last one being `rl`), when the underlying primitive fails on `root[k] + P` for
every `k`, each of `my_getattr`, `my_access`, `my_readlink` and `my_statfs`
returns the negated `errno` of the attempt on the last root, having tried every
root once in order; when every attempt reports `ENOENT` the result is `-ENOENT`. -/
theorem read_ops_last_root_error (PATH_MAX : Nat) (D : my_data) (K : Sys σ) (P : Path)
    (p : Proc σ) (mask : Int) (size : Nat) (rl : Path)
    (hlast : D.rootdir.getLast? = some rl)
    (hfit : ∀ r ∈ D.rootdir, r.length + P.length < PATH_MAX) :
    (∀ e, (∀ r ∈ D.rootdir, ∃ e1, K.lstat (r ++ P) p.os = .error e1) →
        K.lstat (rl ++ P) p.os = .error e →
        ∃ p1, my_getattr PATH_MAX D K P p = some (-e, none, p1) ∧ p1.os = p.os ∧
          p1.trace = p.trace ++ D.rootdir.map (fun r => Call.lstat (r ++ P))) ∧
    (∀ e, (∀ r ∈ D.rootdir, ∃ e1, K.access (r ++ P) mask p.os = .error e1) →
        K.access (rl ++ P) mask p.os = .error e →
        ∃ p1, my_access PATH_MAX D K P mask p = some (-e, p1) ∧ p1.os = p.os ∧
          p1.trace = p.trace ++ D.rootdir.map (fun r => Call.access (r ++ P) mask)) ∧
    (∀ e, (∀ r ∈ D.rootdir, ∃ e1, K.readlink (r ++ P) (size_pred size) p.os = .error e1) →
        K.readlink (rl ++ P) (size_pred size) p.os = .error e →
        ∃ p1, my_readlink PATH_MAX D K P size p = some (-e, none, p1) ∧ p1.os = p.os ∧
          p1.trace = p.trace ++ D.rootdir.map (fun r => Call.readlink (r ++ P) (size_pred size))) ∧
    (∀ e, (∀ r ∈ D.rootdir, ∃ e1, K.statvfs (r ++ P) p.os = .error e1) →
        K.statvfs (rl ++ P) p.os = .error e →
        ∃ p1, my_statfs PATH_MAX D K P p = some (-e, none, p1) ∧ p1.os = p.os ∧
          p1.trace = p.trace ++ D.rootdir.map (fun r => Call.statvfs (r ++ P))) ∧
    ((∀ r ∈ D.rootdir, K.lstat (r ++ P) p.os = .error ENOENT) →
        ∃ p1, my_getattr PATH_MAX D K P p = some (-ENOENT, none, p1)) ∧
    ((∀ r ∈ D.rootdir, K.access (r ++ P) mask p.os = .error ENOENT) →
        ∃ p1, my_access PATH_MAX D K P mask p = some (-ENOENT, p1)) ∧
    ((∀ r ∈ D.rootdir, K.readlink (r ++ P) (size_pred size) p.os = .error ENOENT) →
        ∃ p1, my_readlink PATH_MAX D K P size p = some (-ENOENT, none, p1)) ∧
    ((∀ r ∈ D.rootdir, K.statvfs (r ++ P) p.os = .error ENOENT) →
        ∃ p1, my_statfs PATH_MAX D K P p = some (-ENOENT, none, p1)) := by
  have hrl : rl ∈ D.rootdir := List.mem_of_getLast?_eq_some hlast
  have hA : ∀ e, (∀ r ∈ D.rootdir, ∃ e1, K.lstat (r ++ P) p.os = .error e1) →
        K.lstat (rl ++ P) p.os = .error e →
        ∃ p1, my_getattr PATH_MAX D K P p = some (-e, none, p1) ∧ p1.os = p.os ∧
          p1.trace = p.trace ++ D.rootdir.map (fun r => Call.lstat (r ++ P)) := by
    intro e hall he
    obtain ⟨p1, h1, h2, h3, h4⟩ := scan_roots_all_fail PATH_MAX D P K.lstat Call.lstat
      (fun f st q => (0, some st, q.done (Call.lstat f) q.os)) (fun q => (-q.errno, none, q))
      p rl e hlast hfit hall he
    exact ⟨p1, by rw [my_getattr, my_getattr_loop_eq_scan, h1, h3], h2, h4⟩
  have hB : ∀ e, (∀ r ∈ D.rootdir, ∃ e1, K.access (r ++ P) mask p.os = .error e1) →
        K.access (rl ++ P) mask p.os = .error e →
        ∃ p1, my_access PATH_MAX D K P mask p = some (-e, p1) ∧ p1.os = p.os ∧
          p1.trace = p.trace ++ D.rootdir.map (fun r => Call.access (r ++ P) mask) := by
    intro e hall he
    obtain ⟨p1, h1, h2, h3, h4⟩ := scan_roots_all_fail PATH_MAX D P
      (fun f os => K.access f mask os) (fun f => Call.access f mask)
      (fun f _ q => (0, q.done (Call.access f mask) q.os)) (fun q => (-q.errno, q))
      p rl e hlast hfit hall he
    exact ⟨p1, by rw [my_access, my_access_loop_eq_scan, h1, h3], h2, h4⟩
  have hC : ∀ e, (∀ r ∈ D.rootdir, ∃ e1, K.readlink (r ++ P) (size_pred size) p.os = .error e1) →
        K.readlink (rl ++ P) (size_pred size) p.os = .error e →
        ∃ p1, my_readlink PATH_MAX D K P size p = some (-e, none, p1) ∧ p1.os = p.os ∧
          p1.trace = p.trace ++ D.rootdir.map (fun r => Call.readlink (r ++ P) (size_pred size)) := by
    intro e hall he
    obtain ⟨p1, h1, h2, h3, h4⟩ := scan_roots_all_fail PATH_MAX D P
      (fun f os => K.readlink f (size_pred size) os) (fun f => Call.readlink f (size_pred size))
      (fun f t q => (0, some t, q.done (Call.readlink f (size_pred size)) q.os))
      (fun q => (-q.errno, none, q))
      p rl e hlast hfit hall he
    exact ⟨p1, by rw [my_readlink, my_readlink_loop_eq_scan, h1, h3], h2, h4⟩
  have hD : ∀ e, (∀ r ∈ D.rootdir, ∃ e1, K.statvfs (r ++ P) p.os = .error e1) →
        K.statvfs (rl ++ P) p.os = .error e →
        ∃ p1, my_statfs PATH_MAX D K P p = some (-e, none, p1) ∧ p1.os = p.os ∧
          p1.trace = p.trace ++ D.rootdir.map (fun r => Call.statvfs (r ++ P)) := by
    intro e hall he
    obtain ⟨p1, h1, h2, h3, h4⟩ := scan_roots_all_fail PATH_MAX D P K.statvfs Call.statvfs
      (fun f sv q => (0, some sv, q.done (Call.statvfs f) q.os)) (fun q => (-q.errno, none, q))
      p rl e hlast hfit hall he
    exact ⟨p1, by rw [my_statfs, my_statfs_loop_eq_scan, h1, h3], h2, h4⟩
  refine ⟨hA, hB, hC, hD, ?_, ?_, ?_, ?_⟩
  · intro h
    obtain ⟨p1, h1, _⟩ := hA ENOENT (fun r hr => ⟨_, h r hr⟩) (h rl hrl)
    exact ⟨p1, h1⟩
  · intro h
    obtain ⟨p1, h1, _⟩ := hB ENOENT (fun r hr => ⟨_, h r hr⟩) (h rl hrl)
    exact ⟨p1, h1⟩
  · intro h
    obtain ⟨p1, h1, _⟩ := hC ENOENT (fun r hr => ⟨_, h r hr⟩) (h rl hrl)
    exact ⟨p1, h1⟩
  · intro h
    obtain ⟨p1, h1, _⟩ := hD ENOENT (fun r hr => ⟨_, h r hr⟩) (h rl hrl)
    exact ⟨p1, h1⟩

/-- C2 at a concrete input: `/zz` cannot be looked up in `/r1` (`EACCES`) and
is absent from `/r2` (`ENOENT`); all four callbacks report `-ENOENT`. -/
theorem read_ops_last_root_error_witness :
    (∃ p1, my_getattr 4096 two_roots Toy.sys "/zz".toList (start toy_denied)
        = some (-ENOENT, none, p1) ∧ p1.os = toy_denied ∧
        p1.trace = [] ++ two_roots.rootdir.map (fun r => Call.lstat (r ++ "/zz".toList))) ∧
    (∃ p1, my_access 4096 two_roots Toy.sys "/zz".toList 0 (start toy_denied)
        = some (-ENOENT, p1) ∧ p1.os = toy_denied ∧
        p1.trace = [] ++ two_roots.rootdir.map (fun r => Call.access (r ++ "/zz".toList) 0)) ∧
    (∃ p1, my_readlink 4096 two_roots Toy.sys "/zz".toList 64 (start toy_denied)
        = some (-ENOENT, none, p1) ∧ p1.os = toy_denied ∧
        p1.trace = [] ++ two_roots.rootdir.map
          (fun r => Call.readlink (r ++ "/zz".toList) (size_pred 64))) ∧
    (∃ p1, my_statfs 4096 two_roots Toy.sys "/zz".toList (start toy_denied)
        = some (-ENOENT, none, p1) ∧ p1.os = toy_denied ∧
        p1.trace = [] ++ two_roots.rootdir.map (fun r => Call.statvfs (r ++ "/zz".toList))) :=
  have h := read_ops_last_root_error 4096 two_roots Toy.sys "/zz".toList (start toy_denied) 0 64
    "/r2".toList rfl (by decide)
  have hmem : ∀ r ∈ two_roots.rootdir, r = "/r1".toList ∨ r = "/r2".toList := by
    intro r hr; simpa [two_roots] using hr
  ⟨h.1 ENOENT (fun r hr => by
      rcases hmem r hr with h1 | h1 <;> subst h1
      · exact ⟨EACCES, rfl⟩
      · exact ⟨ENOENT, rfl⟩) rfl,
   h.2.1 ENOENT (fun r hr => by
      rcases hmem r hr with h1 | h1 <;> subst h1
      · exact ⟨EACCES, rfl⟩
      · exact ⟨ENOENT, rfl⟩) rfl,
   h.2.2.1 ENOENT (fun r hr => by
      rcases hmem r hr with h1 | h1 <;> subst h1
      · exact ⟨EACCES, rfl⟩
      · exact ⟨ENOENT, rfl⟩) rfl,
   h.2.2.2.1 ENOENT (fun r hr => by
      rcases hmem r hr with h1 | h1 <;> subst h1
      · exact ⟨EACCES, rfl⟩
      · exact ⟨ENOENT, rfl⟩) rfl⟩

/-- C3 as stated fails: both roots hold `/a`, but `/r1` is not writable.
`my_unlink("/a")` returns 0 after `unlink` failed on `/r1/a` and succeeded on
`/r2/a`: the copy of the first root stays, the copy of the second root is gone, and
the following `my_getattr("/a")` still reports the metadata of the first root. -/
theorem unlink_readonly_first_root :
    Toy.sys.lstat "/r1/a".toList toy_locked = .ok ⟨11, 0o100644, 1⟩ ∧
    Toy.sys.lstat "/r2/a".toList toy_locked = .ok ⟨22, 0o100644, 1⟩ ∧
    ∃ p1, my_unlink 4096 two_roots Toy.sys "/a".toList (start toy_locked) = some (0, p1) ∧
      p1.trace = [Call.unlink "/r1/a".toList, Call.unlink "/r2/a".toList] ∧
      Toy.sys.lstat "/r1/a".toList p1.os = .ok ⟨11, 0o100644, 1⟩ ∧
      Toy.sys.lstat "/r2/a".toList p1.os = .error ENOENT ∧
      ∃ p2, my_getattr 4096 two_roots Toy.sys "/a".toList p1 = some (0, some ⟨11, 0o100644, 1⟩, p2) :=
  ⟨rfl, rfl, _, rfl, rfl, rfl, rfl, _, rfl⟩

/-- C3, amended. Two distinct roots `r1` (index 0) and `r2` (index 1) both hold
a file at `P` (for instance `/a`), and the underlying `unlink` succeeds on the copy
of `r1`, removing that name and no other.  Then `my_getattr(P)` reports the
metadata of `r1`; `my_unlink(P)` returns 0 after the single call
`unlink(r1 + P)`, so every other object is unchanged; and a following
`my_getattr(P)` returns 0 with the metadata of `r2`. -/
theorem unlink_then_fallback (PATH_MAX : Nat) (D : my_data) (K : Sys σ) (P : Path) (p : Proc σ)
    (r1 r2 : Path) (rest : List Path) (m1 m2 : stat) (os1 : σ)
    (hD : D.rootdir = r1 :: r2 :: rest) (hne : r1 ≠ r2)
    (hfit1 : r1.length + P.length < PATH_MAX) (hfit2 : r2.length + P.length < PATH_MAX)
    (h1 : K.lstat (r1 ++ P) p.os = .ok m1) (h2 : K.lstat (r2 ++ P) p.os = .ok m2)
    (hun : K.unlink (r1 ++ P) p.os = .ok os1)
    (hgone : ∃ e, K.lstat (r1 ++ P) os1 = .error e)
    (hframe : ∀ q, q ≠ r1 ++ P → K.lstat q os1 = K.lstat q p.os) :
    (∃ p0, my_getattr PATH_MAX D K P p = some (0, some m1, p0)) ∧
    ∃ p1, my_unlink PATH_MAX D K P p = some (0, p1) ∧
      p1.trace = p.trace ++ [Call.unlink (r1 ++ P)] ∧ p1.os = os1 ∧
      (∃ e, K.lstat (r1 ++ P) p1.os = .error e) ∧
      K.lstat (r2 ++ P) p1.os = .ok m2 ∧
      (∀ q, q ≠ r1 ++ P → K.lstat q p1.os = K.lstat q p.os) ∧
      ∃ p2, my_getattr PATH_MAX D K P p1 = some (0, some m2, p2) := by
  have hne2 : r2 ++ P ≠ r1 ++ P := fun h => hne (List.append_cancel_right h).symm
  have h2after : K.lstat (r2 ++ P) os1 = .ok m2 := by rw [hframe _ hne2, h2]
  have hr0 : D.rootdir[0]? = some r1 := by rw [hD]; simp
  have hr1 : D.rootdir[1]? = some r2 := by rw [hD]; simp
  constructor
  · obtain ⟨p0, hp0, _⟩ := getattr_first PATH_MAX D K P p 0 r1 m1 hr0
      (by
        intro j r hj hr
        have : j = 0 := by omega
        subst this
        rw [hr0] at hr; injection hr with hr; rw [← hr]; exact hfit1)
      h1 (by intro j r hj; omega)
    exact ⟨p0, hp0⟩
  · refine ⟨p.done (Call.unlink (r1 ++ P)) os1,
      unlink_first_root PATH_MAX D K P p r1 (r2 :: rest) os1 hD hfit1 hun, rfl, rfl, hgone,
      h2after, hframe, ?_⟩
    obtain ⟨p2, hp2, _⟩ := getattr_first PATH_MAX D K P (p.done (Call.unlink (r1 ++ P)) os1)
      1 r2 m2 hr1
      (by
        intro j r hj hr
        rcases Nat.eq_zero_or_pos j with h0 | h0
        · subst h0; rw [hr0] at hr; injection hr with hr; rw [← hr]; exact hfit1
        · have : j = 1 := by omega
          subst this; rw [hr1] at hr; injection hr with hr; rw [← hr]; exact hfit2)
      h2after
      (by
        intro j r hj hr
        have : j = 0 := by omega
        subst this
        rw [hr0] at hr; injection hr with hr; rw [← hr]; exact hgone)
    exact ⟨p2, hp2⟩

/-- C3, amended, at a concrete input: both roots hold `/a` and are writable. -/
theorem unlink_then_fallback_witness :
    (∃ p0, my_getattr 4096 two_roots Toy.sys "/a".toList (start toy_both)
        = some (0, some ⟨11, 0o100644, 1⟩, p0)) ∧
    ∃ p1, my_unlink 4096 two_roots Toy.sys "/a".toList (start toy_both) = some (0, p1) ∧
      p1.trace = [] ++ [Call.unlink ("/r1".toList ++ "/a".toList)] ∧
      p1.os = toy_both.remove "/r1/a".toList ∧
      (∃ e, Toy.sys.lstat ("/r1".toList ++ "/a".toList) p1.os = .error e) ∧
      Toy.sys.lstat ("/r2".toList ++ "/a".toList) p1.os = .ok ⟨22, 0o100644, 1⟩ ∧
      (∀ q, q ≠ "/r1".toList ++ "/a".toList →
        Toy.sys.lstat q p1.os = Toy.sys.lstat q (start toy_both).os) ∧
      ∃ p2, my_getattr 4096 two_roots Toy.sys "/a".toList p1
        = some (0, some ⟨22, 0o100644, 1⟩, p2) :=
  unlink_then_fallback 4096 two_roots Toy.sys "/a".toList (start toy_both)
    "/r1".toList "/r2".toList [] ⟨11, 0o100644, 1⟩ ⟨22, 0o100644, 1⟩
    (toy_both.remove "/r1/a".toList) rfl (by decide) (by decide) (by decide) rfl rfl rfl
    ⟨ENOENT, rfl⟩
    (fun q hq => Toy.lstat_remove_ne toy_both "/r1/a".toList q hq)

/-- C4 at the failing input: `/n` is absent from both roots and descriptor 0 is
free.  `creat` on `/r1/n` succeeds with descriptor 0, which `my_create` takes for
a failure (`fd > 0`); it goes on to `creat` on `/r2/n`, gets descriptor 1 and
returns 0.  The new file now exists in both roots, the handle in `fi->fh`
belongs to the copy of the second root, and the following `my_getattr` reports
the copy of the first root. -/
theorem create_descriptor_zero_drift :
    (∀ r ∈ two_roots.rootdir, Toy.sys.lstat (r ++ "/n".toList) toy_fd0 = .error ENOENT) ∧
    ∃ p1, my_create 4096 two_roots Toy.sys "/n".toList 0o644 ⟨0, 0⟩ (start toy_fd0)
        = some (0, ⟨0, 1⟩, p1) ∧
      p1.trace = [Call.creat "/r1/n".toList 0o644, Call.creat "/r2/n".toList 0o644] ∧
      Toy.sys.creat "/r1/n".toList 0o644 toy_fd0
        = .ok (0, { toy_fd0 with files := [("/r1/n".toList, ⟨1, 0o644, 0⟩)], next_fd := 1 }) ∧
      Toy.sys.lstat "/r1/n".toList p1.os = .ok ⟨1, 0o644, 0⟩ ∧
      Toy.sys.lstat "/r2/n".toList p1.os = .ok ⟨2, 0o644, 0⟩ ∧
      ∃ p2, my_getattr 4096 two_roots Toy.sys "/n".toList p1 = some (0, some ⟨1, 0o644, 0⟩, p2) :=
  ⟨by
    intro r hr
    simp only [two_roots, List.mem_cons, List.mem_singleton, List.not_mem_nil, or_false] at hr
    rcases hr with h | h <;> subst h <;> rfl,
   _, rfl, rfl, rfl, rfl, rfl, _, rfl⟩

/-- C5. Two-path callbacks never mix roots.  For `my_rename`, `my_link` and
`my_symlink` (both paths fitting in `PATH_MAX` under every root), the calls
issued are the underlying primitive on the pairs `(root[k] + first argument,
root[k] + second argument)` for `k = 0, 1, ...` in order, up to and including
the first success: either the primitive was applied exactly once, in one root,
and the callback returned 0, or it failed in every root and the callback
returned the negated `errno` of the last attempt.  Hence, with at least one root
and non-zero error codes, a call that returns 0 applied exactly one underlying
operation, whose two paths lie in one root. -/
theorem two_path_ops_same_root (PATH_MAX : Nat) (D : my_data) (K : Sys σ) (a b : Path)
    (p : Proc σ)
    (hfa : ∀ r ∈ D.rootdir, r.length + a.length < PATH_MAX)
    (hfb : ∀ r ∈ D.rootdir, r.length + b.length < PATH_MAX) :
    (∃ out, my_rename PATH_MAX D K a b p = some out ∧
      (applied_in_one_root D.rootdir K.rename Call.rename a b p out ∨
        failed_in_every_root D.rootdir K.rename Call.rename a b p out)) ∧
    (∃ out, my_link PATH_MAX D K a b p = some out ∧
      (applied_in_one_root D.rootdir K.link Call.link a b p out ∨
        failed_in_every_root D.rootdir K.link Call.link a b p out)) ∧
    (∃ out, my_symlink PATH_MAX D K a b p = some out ∧
      (applied_in_one_root D.rootdir K.symlink Call.symlink a b p out ∨
        failed_in_every_root D.rootdir K.symlink Call.symlink a b p out)) ∧
    (D.rootdir ≠ [] →
      (∀ x y os e, K.rename x y os = .error e → e ≠ 0) →
      (∀ x y os e, K.link x y os = .error e → e ≠ 0) →
      (∀ x y os e, K.symlink x y os = .error e → e ≠ 0) →
      (∀ out, my_rename PATH_MAX D K a b p = some out → out.1 = 0 →
        applied_in_one_root D.rootdir K.rename Call.rename a b p out) ∧
      (∀ out, my_link PATH_MAX D K a b p = some out → out.1 = 0 →
        applied_in_one_root D.rootdir K.link Call.link a b p out) ∧
      (∀ out, my_symlink PATH_MAX D K a b p = some out → out.1 = 0 →
        applied_in_one_root D.rootdir K.symlink Call.symlink a b p out)) := by
  refine ⟨rename_outcome PATH_MAX D K a b p hfa hfb, link_outcome PATH_MAX D K a b p hfa hfb,
    symlink_outcome PATH_MAX D K a b p hfa hfb, ?_⟩
  intro hne h1 h2 h3
  refine ⟨?_, ?_, ?_⟩
  · intro out hout h0
    obtain ⟨out1, ho1, hcase⟩ := rename_outcome PATH_MAX D K a b p hfa hfb
    rw [hout] at ho1
    injection ho1 with ho1
    subst ho1
    rcases hcase with h | h
    · exact h
    · exact absurd h0 (failed_in_every_root_ne_zero _ _ _ a b p out hne h1 h)
  · intro out hout h0
    obtain ⟨out1, ho1, hcase⟩ := link_outcome PATH_MAX D K a b p hfa hfb
    rw [hout] at ho1
    injection ho1 with ho1
    subst ho1
    rcases hcase with h | h
    · exact h
    · exact absurd h0 (failed_in_every_root_ne_zero _ _ _ a b p out hne h2 h)
  · intro out hout h0
    obtain ⟨out1, ho1, hcase⟩ := symlink_outcome PATH_MAX D K a b p hfa hfb
    rw [hout] at ho1
    injection ho1 with ho1
    subst ho1
    rcases hcase with h | h
    · exact h
    · exact absurd h0 (failed_in_every_root_ne_zero _ _ _ a b p out hne h3 h)

/-- C5 at a concrete input: only `/r2` holds `/a`; `rename("/a", "/b")` fails in
`/r1` and is applied in `/r2`, on `/r2/a` and `/r2/b`. -/
theorem two_path_ops_same_root_witness :
    (my_rename 4096 two_roots Toy.sys "/a".toList "/b".toList (start toy_second)).map
        (fun out => (out.1, out.2.trace))
      = some (0, [Call.rename "/r1/a".toList "/r1/b".toList,
          Call.rename "/r2/a".toList "/r2/b".toList]) ∧
    ∃ out, my_rename 4096 two_roots Toy.sys "/a".toList "/b".toList (start toy_second)
        = some out ∧
      (applied_in_one_root two_roots.rootdir Toy.sys.rename Call.rename "/a".toList
          "/b".toList (start toy_second) out ∨
        failed_in_every_root two_roots.rootdir Toy.sys.rename Call.rename "/a".toList
          "/b".toList (start toy_second) out) :=
  ⟨rfl, (two_path_ops_same_root 4096 two_roots Toy.sys "/a".toList "/b".toList
    (start toy_second) (by decide) (by decide)).1⟩

/-- C6 at the failing input: only `/r1/a` exists and descriptor 0 is free.
`open` fails on `/a`, then succeeds on `/r1/a` with the valid descriptor 0;
`my_open` takes it for a failure (`fd > 0`), goes on to `/r2/a`, and returns
`-ENOENT` with `fi->fh` untouched and descriptor 0 left open. -/
theorem open_descriptor_zero_rejected :
    Toy.sys.open_ "/r1/a".toList 0 toy_fd0_first
      = .ok (0, { toy_fd0_first with next_fd := 1 }) ∧
    my_open 4096 two_roots Toy.sys "/a".toList ⟨0, 99⟩ (start toy_fd0_first)
      = some (-ENOENT, ⟨0, 99⟩,
          { os := { toy_fd0_first with next_fd := 1 }, errno := ENOENT,
            trace := [Call.open_ "/a".toList 0, Call.open_ "/r1/a".toList 0,
              Call.open_ "/r2/a".toList 0] }) :=
  ⟨rfl, rfl⟩

/-- C7. `my_readdir` is the undeduplicated concatenation over the roots.  For
every virtual path `P` (fitting in `PATH_MAX` under every root) and every filler
that accepts all entries, the call returns 0 and the names it passes to the filler
are the entries of `root[0] + P`, then those of `root[1] + P`, ..., a root whose
directory cannot be opened contributing nothing.  So a name is emitted as many
times as the roots list it (`k` times when `k` roots list it once each), and
the `offset` and `fi` arguments do not influence the result. -/
theorem readdir_concatenates {β : Type} (PATH_MAX : Nat) (D : my_data) (K : Sys σ) (P : Path)
    (buf : β) (filler : β → Path → Int × β) (offset : Int) (fi : fuse_file_info) (p : Proc σ)
    (hfit : ∀ r ∈ D.rootdir, r.length + P.length < PATH_MAX)
    (hacc : ∀ b name, (filler b name).1 = 0) :
    ∃ buf1 p1 calls,
      my_readdir PATH_MAX D K P buf filler offset fi p = some (0, buf1, p1) ∧
      p1.trace = p.trace ++ calls ∧
      names_passed calls = (root_listings K P D.rootdir p.os).flatten ∧
      buf1 = (names_passed calls).foldl (fun b name => (filler b name).2) buf ∧
      (∀ name, (names_passed calls).count name
        = ((root_listings K P D.rootdir p.os).map (List.count name)).sum) ∧
      (∀ name, (∀ l ∈ root_listings K P D.rootdir p.os, l.count name ≤ 1) →
        (names_passed calls).count name
          = ((root_listings K P D.rootdir p.os).filter (fun l => decide (name ∈ l))).length) ∧
      (∀ offset1 fi1, my_readdir PATH_MAX D K P buf filler offset1 fi1 p
        = my_readdir PATH_MAX D K P buf filler offset fi p) := by
  obtain ⟨buf1, p1, calls, h1, h2, h3, h4⟩ :=
    readdir_loop_accept PATH_MAX D K P filler hacc hfit D.dir_cnt 0 buf p
      (by simp [my_data.dir_cnt])
  rw [List.drop_zero] at h3
  refine ⟨buf1, p1, calls, h1, h2, h3, h4, ?_, ?_, fun _ _ => rfl⟩
  · intro name
    rw [h3, List.count_flatten]
  · intro name hone
    rw [h3, List.count_flatten]
    exact sum_count_eq_length_filter name _ hone

/-- C7 at a concrete input: `/d` lists `a` in both roots and `b` in the first;
`a` is emitted twice. -/
theorem readdir_concatenates_witness :
    (my_readdir 4096 two_roots Toy.sys "/d".toList [] filler_all 0 ⟨0, 0⟩ (start toy_dirs)).map
        (fun out => (out.1, out.2.1))
      = some (0, [".".toList, "..".toList, "a".toList, "b".toList,
          ".".toList, "..".toList, "a".toList]) ∧
    ∃ buf1 p1 calls,
      my_readdir 4096 two_roots Toy.sys "/d".toList [] filler_all 0 ⟨0, 0⟩ (start toy_dirs)
        = some (0, buf1, p1) ∧
      p1.trace = (start toy_dirs).trace ++ calls ∧
      names_passed calls
        = (root_listings Toy.sys "/d".toList two_roots.rootdir (start toy_dirs).os).flatten ∧
      buf1 = (names_passed calls).foldl (fun b name => (filler_all b name).2) [] ∧
      (∀ name, (names_passed calls).count name
        = ((root_listings Toy.sys "/d".toList two_roots.rootdir (start toy_dirs).os).map
            (List.count name)).sum) ∧
      (∀ name, (∀ l ∈ root_listings Toy.sys "/d".toList two_roots.rootdir (start toy_dirs).os,
          l.count name ≤ 1) →
        (names_passed calls).count name
          = ((root_listings Toy.sys "/d".toList two_roots.rootdir (start toy_dirs).os).filter
              (fun l => decide (name ∈ l))).length) ∧
      (∀ offset1 fi1,
        my_readdir 4096 two_roots Toy.sys "/d".toList [] filler_all offset1 fi1 (start toy_dirs)
          = my_readdir 4096 two_roots Toy.sys "/d".toList [] filler_all 0 ⟨0, 0⟩
              (start toy_dirs)) :=
  ⟨rfl, readdir_concatenates 4096 two_roots Toy.sys "/d".toList [] filler_all 0 ⟨0, 0⟩
    (start toy_dirs) (by decide) (fun _ _ => rfl)⟩

/-- C8 as stated fails: with `PATH_MAX = 4096`, roots `/r1` and `/r2` and a
virtual path of 4097 characters, `get_path` reports no error: `strncat` appends
the first 4096 characters of the path to the root, so the string written is the
root followed by a truncated path.  `my_getattr` hands that truncated string to
`lstat`, once per root; the `ENAMETOOLONG` it returns is the answer of `lstat`,
not a rejection by the path resolver. -/
theorem get_path_overlong_not_rejected :
    ("/r1".toList).length + long_path.length > 4096 ∧
    get_path_flat 4096 two_roots long_path 0 = some ("/r1".toList ++ long_path_cut) ∧
    "/r1".toList ++ long_path_cut ≠ "/r1".toList ++ long_path ∧
    my_getattr_flat 4096 two_roots Toy.sys_limit long_path (start toy_both)
      = some (-ENAMETOOLONG, none,
          { os := toy_both, errno := ENAMETOOLONG,
            trace := [Call.lstat ("/r1".toList ++ long_path_cut),
              Call.lstat ("/r2".toList ++ long_path_cut)] }) := by
  have h0 : get_path_flat 4096 two_roots long_path 0 = some ("/r1".toList ++ long_path_cut) := by
    rw [← long_path_take]; rfl
  have h1 : get_path_flat 4096 two_roots long_path 1 = some ("/r2".toList ++ long_path_cut) := by
    rw [← long_path_take]; rfl
  have hl : ∀ (r : Path) (s : Toy),
      Toy.sys_limit.lstat (r ++ long_path_cut) s = .error ENAMETOOLONG := by
    intro r s
    have : 4096 ≤ (r ++ long_path_cut).length := by
      rw [List.length_append, long_path_cut_length]; omega
    simp only [Toy.sys_limit, this, if_true]
  refine ⟨by rw [long_path_length]; decide, h0, ?_, ?_⟩
  · intro h
    have hlen := congrArg List.length h
    rw [List.length_append, List.length_append, long_path_length, long_path_cut_length] at hlen
    omega
  · show my_getattr_flat_loop 4096 two_roots Toy.sys_limit long_path (1 + 1) 0 _ = _
    simp only [my_getattr_flat_loop, h0, h1, hl, Proc.failed, start, List.nil_append,
      List.cons_append]

/-- C8, amended. `get_path` has no failure result and tests no length.  For a
root index `idx` and a virtual path `P` with
`length(root[idx]) + length(P) < PATH_MAX` it yields exactly `root[idx]` followed
by `P` (inside the array, and as the string written), and that is the path
`my_getattr` hands to `lstat` in iteration `idx`. -/
theorem get_path_within_limit (PATH_MAX : Nat) (D : my_data) (K : Sys σ) (P : Path)
    (idx : Nat) (r : Path)
    (hr : D.rootdir[idx]? = some r) (hfit : r.length + P.length < PATH_MAX) :
    get_path PATH_MAX D P idx = some (r ++ P) ∧
    get_path_flat PATH_MAX D P idx = some (r ++ P) ∧
    ∀ (n : Nat) (p : Proc σ),
      my_getattr_loop PATH_MAX D K P (n + 1) idx p
        = (match K.lstat (r ++ P) p.os with
            | .ok st => some (0, some st, p.done (Call.lstat (r ++ P)) p.os)
            | .error e =>
              my_getattr_loop PATH_MAX D K P n (idx + 1) (p.failed (Call.lstat (r ++ P)) e)) := by
  have hgp := get_path_fit PATH_MAX D P idx r hr hfit
  refine ⟨hgp, get_path_flat_fit PATH_MAX D P idx r hr hfit, ?_⟩
  intro n p
  simp only [my_getattr_loop, hgp]

/-- C8, amended, at a concrete input: `/a` under the second root. -/
theorem get_path_within_limit_witness :
    get_path 4096 two_roots "/a".toList 1 = some ("/r2".toList ++ "/a".toList) ∧
    get_path_flat 4096 two_roots "/a".toList 1 = some ("/r2".toList ++ "/a".toList) :=
  ⟨(get_path_within_limit 4096 two_roots Toy.sys "/a".toList 1 "/r2".toList rfl (by decide)).1,
   (get_path_within_limit 4096 two_roots Toy.sys "/a".toList 1 "/r2".toList rfl (by decide)).2.1⟩

/-- C9 as stated fails: descriptor 3 is the handle of an open session and its
`close` reports `EIO`.  `my_release` calls `close(3)` once and returns -1, not 0. -/
theorem release_returns_close_failure :
    my_release two_roots Toy.sys "/a".toList ⟨0, 3⟩ (start toy_bad_close)
      = (-1, { os := toy_bad_close, errno := EIO, trace := [Call.close 3] }) ∧
    (my_release two_roots Toy.sys "/a".toList ⟨0, 3⟩ (start toy_bad_close)).1 ≠ 0 :=
  ⟨rfl, by decide⟩

/-- C9, amended. `my_release` and `my_releasedir` call `close` / `closedir` on
the stored handle exactly once, unconditionally, and return the status of that
call as it is: 0 when it succeeded, -1 when it failed (`errno` is left set by
the failed call and is not returned). -/
theorem release_returns_close_status (D : my_data) (K : Sys σ) (path : Path)
    (fi : fuse_file_info) (p : Proc σ) :
    (my_release D K path fi p).2.trace = p.trace ++ [Call.close (to_int fi.fh)] ∧
    (my_release D K path fi p).1
      = (match K.close (to_int fi.fh) p.os with | .ok _ => 0 | .error _ => -1) ∧
    (∀ e, K.close (to_int fi.fh) p.os = .error e → (my_release D K path fi p).2.errno = e) ∧
    (my_releasedir D K path fi p).2.trace = p.trace ++ [Call.closedir fi.fh] ∧
    (my_releasedir D K path fi p).1
      = (match K.closedir fi.fh p.os with | .ok _ => 0 | .error _ => -1) ∧
    (∀ e, K.closedir fi.fh p.os = .error e → (my_releasedir D K path fi p).2.errno = e) := by
  refine ⟨?_, ?_, ?_, ?_, ?_, ?_⟩
  · simp only [my_release]; cases K.close (to_int fi.fh) p.os <;> rfl
  · simp only [my_release]; cases K.close (to_int fi.fh) p.os <;> rfl
  · intro e he; simp only [my_release, he]; rfl
  · simp only [my_releasedir]; cases K.closedir fi.fh p.os <;> rfl
  · simp only [my_releasedir]; cases K.closedir fi.fh p.os <;> rfl
  · intro e he; simp only [my_releasedir, he]; rfl

/-- C9, amended, at a concrete input: `close(3)` fails with `EIO`; `my_release`
leaves `errno = EIO` and returns -1. -/
theorem release_returns_close_status_witness :
    (my_release two_roots Toy.sys "/a".toList ⟨0, 3⟩ (start toy_bad_close)).2.errno = EIO ∧
    (my_release two_roots Toy.sys "/a".toList ⟨0, 3⟩ (start toy_bad_close)).1
      = (match Toy.sys.close (to_int ((3 : Nat) : Int)) toy_bad_close with
          | .ok _ => 0 | .error _ => -1) :=
  ⟨(release_returns_close_status two_roots Toy.sys "/a".toList ⟨0, 3⟩
      (start toy_bad_close)).2.2.1 EIO rfl,
   (release_returns_close_status two_roots Toy.sys "/a".toList ⟨0, 3⟩
      (start toy_bad_close)).2.1⟩

/-- C10. The handle-bound callbacks `my_read`, `my_write`, `my_ftruncate`,
`my_fsync` and `my_release` do not depend on the virtual path or on the root
list: two invocations that agree on `fi->fh` and on the data arguments give the
same result and the same process state, whatever the two paths and the two
root lists are; and the one call each of them issues is on the stored handle. -/
theorem handle_ops_pinned (HAVE_FDATASYNC : Bool) (D D1 : my_data) (K : Sys σ)
    (path path1 : Path) (buf : List Nat) (size : Nat) (offset : Int) (datasync : Int)
    (fi : fuse_file_info) (p : Proc σ) :
    my_read D K path size offset fi p = my_read D1 K path1 size offset fi p ∧
    my_write D K path buf size offset fi p = my_write D1 K path1 buf size offset fi p ∧
    my_ftruncate D K path offset fi p = my_ftruncate D1 K path1 offset fi p ∧
    my_fsync HAVE_FDATASYNC D K path datasync fi p
      = my_fsync HAVE_FDATASYNC D1 K path1 datasync fi p ∧
    my_release D K path fi p = my_release D1 K path1 fi p ∧
    (my_read D K path size offset fi p).2.2.trace
      = p.trace ++ [Call.pread (to_int fi.fh) size offset] ∧
    (my_write D K path buf size offset fi p).2.trace
      = p.trace ++ [Call.pwrite (to_int fi.fh) buf size offset] ∧
    (my_ftruncate D K path offset fi p).2.trace
      = p.trace ++ [Call.ftruncate (to_int fi.fh) offset] ∧
    (my_fsync HAVE_FDATASYNC D K path datasync fi p).2.trace
      = p.trace ++ [if HAVE_FDATASYNC && decide (datasync ≠ 0)
          then Call.fdatasync (to_int fi.fh) else Call.fsync (to_int fi.fh)] ∧
    (my_release D K path fi p).2.trace = p.trace ++ [Call.close (to_int fi.fh)] := by
  refine ⟨rfl, rfl, rfl, rfl, rfl, ?_, ?_, ?_, ?_, ?_⟩
  · simp only [my_read]
    cases K.pread (to_int fi.fh) size offset p.os with
    | error e => rfl
    | ok r =>
      obtain ⟨bytes, os1⟩ := r
      dsimp only
      split <;> rfl
  · simp only [my_write]
    cases K.pwrite (to_int fi.fh) buf size offset p.os with
    | error e => rfl
    | ok r =>
      obtain ⟨cnt, os1⟩ := r
      dsimp only
      split <;> rfl
  · simp only [my_ftruncate]; cases K.ftruncate (to_int fi.fh) offset p.os <;> rfl
  · simp only [my_fsync]
    by_cases h : (HAVE_FDATASYNC && decide (datasync ≠ 0)) = true
    · simp only [h, if_true]
      cases K.fdatasync (to_int fi.fh) p.os <;> rfl
    · simp only [h, if_false]
      cases K.fsync (to_int fi.fh) p.os <;> rfl
  · simp only [my_release]; cases K.close (to_int fi.fh) p.os <;> rfl

/-- C11 at the failing input: both roots already hold `/a` and `my_mknod` is
asked for a regular file.  `open(O_CREAT | O_EXCL | O_WRONLY)` fails with `EEXIST`
in each root; after each failure `my_mknod` calls `close(-1)`, which fails with
`EBADF` and overwrites `errno`.  The result is `-EBADF`, not `-EEXIST`. -/
theorem mknod_regular_reports_ebadf :
    S_ISREG 0o100644 = true ∧
    Toy.sys.open_mode "/r1/a".toList O_CREAT_EXCL_WRONLY 0o100644 toy_both = .error EEXIST ∧
    Toy.sys.open_mode "/r2/a".toList O_CREAT_EXCL_WRONLY 0o100644 toy_both = .error EEXIST ∧
    my_mknod 4096 two_roots Toy.sys "/a".toList 0o100644 0 (start toy_both)
      = some (-EBADF,
          { os := toy_both, errno := EBADF,
            trace := [Call.open_mode "/r1/a".toList O_CREAT_EXCL_WRONLY 0o100644, Call.close (-1),
              Call.open_mode "/r2/a".toList O_CREAT_EXCL_WRONLY 0o100644, Call.close (-1)] }) ∧
    -EBADF ≠ -EEXIST :=
  ⟨rfl, rfl, rfl, rfl, by decide⟩

/-- C12 at the failing input: `/r1/a` carries the attribute `user.k` with a
value of two bytes; `/r2/a` exists without it.  `lgetxattr` succeeds on `/r1/a`
with result 2 (and `llistxattr` with result 7, the list `user.k` and its NUL);
`my_getxattr` and `my_listxattr` test `res == 0`, take the positive size for a
failure and go on to `/r2/a`: `my_getxattr` returns `-ENODATA` (61) and
`my_listxattr` returns 0, the empty list of `/r2/a`, instead of the sizes 2 and 7. -/
theorem getxattr_positive_size_falls_through :
    Toy.sys.lgetxattr "/r1/a".toList "user.k".toList 16 toy_xattr = .ok (2, [1, 2]) ∧
    my_getxattr 4096 two_roots Toy.sys "/a".toList "user.k".toList 16 (start toy_xattr)
      = some (-61, some [1, 2],
          { os := toy_xattr, errno := 61,
            trace := [Call.lgetxattr "/r1/a".toList "user.k".toList 16,
              Call.lgetxattr "/r2/a".toList "user.k".toList 16] }) ∧
    Toy.sys.llistxattr "/r1/a".toList 16 toy_xattr = .ok (7, [117, 115, 101, 114, 46, 107, 0]) ∧
    my_listxattr 4096 two_roots Toy.sys "/a".toList 16 (start toy_xattr)
      = some (0, some [],
          { os := toy_xattr, errno := 0,
            trace := [Call.llistxattr "/r1/a".toList 16, Call.llistxattr "/r2/a".toList 16] }) :=
  ⟨rfl, rfl, rfl, rfl⟩

end Claims

end HybridFuse
